import Mathlib

/-!
# go_esl: connection pool, frame reader, command builder, event dispatcher

A shallow embedding of `pool/pool.go`, `pool/connection.go`,
`command/builder.go` and `event/dispatcher.go`, followed by the properties
established for them.

Conventions of the embedding

* Go strings and byte slices are lists of byte values (`Nat`).
* Instants and durations are integers (nanoseconds).
* A buffered channel is the list of the elements it holds, oldest first,
  together with its capacity.
* A pointer `*Connection` is an address; the objects live in a heap, so that
  every holder of a pointer sees what the others do to the object.
* Everything the network decides (whether a heartbeat is answered, whether a
  dial succeeds, how the incoming bytes are batched) is an explicit argument.
* The counter `openCount` is an `int32`: every `atomic.AddInt32` wraps.
* Allocating a buffer (`make([]byte, n)`) always succeeds.
-/

namespace GoEsl

/-! ## pool/config.go -/

/-- The struct `PoolConfig`. -/
structure PoolConfig where
  MaxOpen : Int
  MaxIdle : Int
  Timeout : Int
  Host : String
  Port : Int
  Password : String
  IdleTimeout : Int
  deriving DecidableEq, Repr

/-! ## pool/connection.go: the Transport -/

/-- The struct `Connection`.  `id` names the socket held in the field `conn`;
`sockClosed` records that `c.conn.Close()` has been called on it. -/
structure Connection where
  id : Nat
  lastUsed : Int
  alive : Bool
  sockClosed : Bool
  deriving DecidableEq, Repr

/-- The method `(*Connection).Close`: closes the socket and clears `alive`. -/
def Connection.Close (c : Connection) : Connection :=
  { c with sockClosed := true, alive := false }

/-- The method `(*Connection).IsValid`.  `net id` tells whether the heartbeat
exchange on socket `id` (set write deadline, write `ping`, set read deadline,
read the reply) goes through; any failure among the four clears `alive`.
Returns the reported validity and the connection afterwards. -/
def Connection.IsValid (net : Nat → Bool) (c : Connection) : Bool × Connection :=
  if !c.alive then (false, c)
  else if net c.id then (true, c)
  else (false, { c with alive := false })

/-! ## Durations -/

/-- Largest value of `time.Duration`. -/
def maxDuration : Int := 2 ^ 63 - 1

/-- Smallest value of `time.Duration`. -/
def minDuration : Int := -(2 ^ 63)

/-- The method `Time.Sub`: the elapsed duration `t - u`, saturated to the
range of `time.Duration`. -/
def timeSub (t u : Int) : Int :=
  if t - u > maxDuration then maxDuration
  else if t - u < minDuration then minDuration
  else t - u

/-! ## pool/pool.go: the pool and its background loops -/

/-- Conversion to `int32`: the value modulo `2^32` in the range
`-2^31 .. 2^31 - 1`.  It is the result of `atomic.AddInt32` on the exact sum,
and of the conversion `int32(p.config.MaxOpen)`. -/
def int32 (x : Int) : Int :=
  (x + 2 ^ 31) % 2 ^ 32 - 2 ^ 31

/-- The objects of type `Connection`, by address: a value of type
`*Connection` is a `Nat`, and `heap a` is the object it points to.  Two copies
of one pointer share the object. -/
abbrev Heap := Nat → Connection

/-- Stores `c` at address `a`. -/
def Heap.store (heap : Heap) (a : Nat) (c : Connection) : Heap :=
  fun k => if k = a then c else heap k

/-- The struct `connectionPoolImpl`.  `pool` is the content of the buffered
channel of `*Connection` (capacity `config.MaxOpen`), oldest element first.
`openCount` is the `int32` counter.  `mu` tells whether the mutex `p.mu` is
held.  `signals` counts the calls of `p.cond.Signal()` issued so far.  The
field `waitTime` (wall-clock bookkeeping for `Stats`) is left out. -/
structure connectionPoolImpl where
  config : PoolConfig
  pool : List Nat
  openCount : Int
  waitCount : Int
  closed : Bool
  mu : Bool
  signals : Nat
  deriving DecidableEq, Repr

/-- Capacity of the idle channel: `make(chan *Connection, config.MaxOpen)`. -/
def connectionPoolImpl.capacity (p : connectionPoolImpl) : Nat :=
  p.config.MaxOpen.toNat

/-- The method `Put` called with the pointer `conn`.  `net` answers the
heartbeat of `IsValid`, `now` is the value of `time.Now()`.  Returns the pool
and the heap afterwards. -/
def Put (net : Nat → Bool) (now : Int) (heap : Heap) (p : connectionPoolImpl) (conn : Nat) :
    connectionPoolImpl × Heap :=
  if p.closed then
    ({ p with openCount := int32 (p.openCount - 1) }, heap.store conn (heap conn).Close)
  else
    let r := (heap conn).IsValid net
    if !r.1 then
      ({ p with openCount := int32 (p.openCount - 1) }, heap.store conn r.2.Close)
    else
      let conn1 := { r.2 with lastUsed := now }
      -- select { case p.pool <- conn: ...; default: ... }
      if p.pool.length < p.capacity then
        ({ p with pool := p.pool ++ [conn], signals := p.signals + 1 },
          heap.store conn conn1)
      else
        ({ p with openCount := int32 (p.openCount - 1) }, heap.store conn conn1.Close)

/-- The test `now.Sub(conn.lastUsed) > p.config.IdleTimeout`. -/
def expired (cfg : PoolConfig) (now : Int) (c : Connection) : Bool :=
  decide (timeSub now c.lastUsed > cfg.IdleTimeout)

/-- The inner loop of `evictor`: `for i := 0; i < n; i++ { select ... }`,
with `n` iterations still to run.  The `default: break` arm only leaves the
`select`. -/
def evictLoop (now : Int) : Nat → connectionPoolImpl → Heap → connectionPoolImpl × Heap
  | 0, p, heap => (p, heap)
  | n + 1, p, heap =>
    match p.pool with
    | [] => evictLoop now n p heap
    | conn :: rest =>
      if expired p.config now (heap conn) then
        evictLoop now n { p with pool := rest, openCount := int32 (p.openCount - 1) }
          (heap.store conn (heap conn).Close)
      else
        evictLoop now n { p with pool := rest ++ [conn] } heap

/-- How one iteration of the ticker loop of a background goroutine ends: the
goroutine returns because the pool is closed, it is stuck in `p.mu.Lock()`
because the mutex is held, or the scan has run. -/
inductive PassResult (α : Type) where
  | exited
  | blocked
  | done (a : α)
  deriving DecidableEq, Repr

/-- Applies `f` to the state after a scan. -/
def PassResult.map {α β : Type} (f : α → β) : PassResult α → PassResult β
  | .exited => .exited
  | .blocked => .blocked
  | .done a => .done (f a)

/-- One iteration of `for range ticker.C` in `evictor`.  `p.mu.Lock()` blocks
while the mutex is held; `defer p.mu.Unlock()` sits inside the loop, so it
only runs when `evictor` returns and the mutex is still held after the scan.
`n := len(p.pool)` is taken once, before the scan. -/
def evictor (now : Int) (heap : Heap) (p : connectionPoolImpl) :
    PassResult (connectionPoolImpl × Heap) :=
  if p.closed then .exited
  else if p.mu then .blocked
  else .done (evictLoop now p.pool.length { p with mu := true } heap)

/-- The state of the scan in `healthCheck`; `probed` lists the pointers on
which `IsValid` was called. -/
structure HealthScan where
  p : connectionPoolImpl
  heap : Heap
  i : Nat
  probed : List Nat

/-- The inner loop of `healthCheck`:
`for i := 0; i < len(p.pool); i++ { select ... }`.  The bound `len(p.pool)` is
read again before every iteration.  `clock i` is the value of `time.Now()`
inside `time.Since` at iteration `i`.  Every iteration increases `i` and never
lengthens the channel, so `fuel = len(p.pool)` at entry is never exhausted
before `i` reaches the bound. -/
def healthLoop (net : Nat → Bool) (clock : Nat → Int) : Nat → HealthScan → HealthScan
  | 0, s => s
  | fuel + 1, s =>
    if s.i < s.p.pool.length then
      match s.p.pool with
      | [] => healthLoop net clock fuel { s with i := s.i + 1 }
      | conn :: rest =>
        let r := (s.heap conn).IsValid net
        if !r.1 || decide (timeSub (clock s.i) r.2.lastUsed > s.p.config.IdleTimeout) then
          healthLoop net clock fuel
            { p := { s.p with pool := rest, openCount := int32 (s.p.openCount - 1) },
              heap := s.heap.store conn r.2.Close,
              i := s.i + 1,
              probed := s.probed ++ [conn] }
        else
          healthLoop net clock fuel
            { p := { s.p with pool := rest ++ [conn] },
              heap := s.heap.store conn r.2,
              i := s.i + 1,
              probed := s.probed ++ [conn] }
    else s

/-- One iteration of `for range ticker.C` in `healthCheck`.  As in `evictor`,
the mutex taken by `p.mu.Lock()` is still held after the scan, because the
deferred `Unlock` only runs when `healthCheck` returns. -/
def healthCheck (net : Nat → Bool) (clock : Nat → Int) (heap : Heap)
    (p : connectionPoolImpl) : PassResult HealthScan :=
  if p.closed then .exited
  else if p.mu then .blocked
  else
    .done (healthLoop net clock p.pool.length
      { p := { p with mu := true }, heap := heap, i := 0, probed := [] })

/-! ## model/response.go, event/dispatcher.go -/

/-- The struct `model.Event`; the map `Headers` is an association list. -/
structure Event where
  Name : String
  Headers : List (String × String)
  Body : String
  Raw : String
  deriving DecidableEq, Repr

/-- A value of type `EventListener` (a Go function).  `id` identifies the
function; `panics ev` tells whether the call `listener(ev)` panics instead of
returning. -/
structure EventListener where
  id : Nat
  panics : Event → Bool

/-- The struct `EventDispatcher`: the map `listeners`, as a lookup function
(`none` when the key is absent).  The worker pool and the lock carry no data. -/
structure EventDispatcher where
  listeners : String → Option (List EventListener)

/-- The constructor `NewDispatcher`: an empty listener map. -/
def NewDispatcher : EventDispatcher :=
  { listeners := fun _ => none }

/-- The method `Register`:
`ed.listeners[eventName] = append(ed.listeners[eventName], listener)`. -/
def EventDispatcher.Register (ed : EventDispatcher) (eventName : String)
    (listener : EventListener) : EventDispatcher :=
  { listeners := fun k =>
      if k = eventName then some ((ed.listeners eventName).getD [] ++ [listener])
      else ed.listeners k }

/-- A sequence of `Register` calls applied to a fresh dispatcher. -/
def registerAll (calls : List (String × EventListener)) : EventDispatcher :=
  calls.foldl (fun ed c => ed.Register c.1 c.2) NewDispatcher

/-- What running a piece of code did: the ids of the listeners it called, in
call order, and whether it ended in a panic. -/
structure Delivery where
  invoked : List Nat
  panicked : Bool
  deriving DecidableEq, Repr

/-- The loop `for _, listener := range listeners { listener(event) }`: a panic
in a call unwinds the loop, nothing in the closure recovers it. -/
def invokeAll (event : Event) : List EventListener → Delivery
  | [] => { invoked := [], panicked := false }
  | l :: ls =>
    if l.panics event then { invoked := [l.id], panicked := true }
    else
      let r := invokeAll event ls
      { invoked := l.id :: r.invoked, panicked := r.panicked }

/-- The closure that `Dispatch` hands to `ed.pool.Submit`, run against the
listener map `ed`: first the listeners under `"*"`, then those under
`event.Name`. -/
def unitOfWork (ed : EventDispatcher) (event : Event) : Delivery :=
  let r1 :=
    match ed.listeners "*" with
    | some listeners => invokeAll event listeners
    | none => { invoked := [], panicked := false }
  if r1.panicked then r1
  else
    let r2 :=
      match ed.listeners event.Name with
      | some listeners => invokeAll event listeners
      | none => { invoked := [], panicked := false }
    { invoked := r1.invoked ++ r2.invoked, panicked := r2.panicked }

/-- The first statement of `Dispatch`: the header `Event-Name`, when present,
replaces `event.Name`. -/
def effectiveEvent (event : Event) : Event :=
  match event.Headers.lookup "Event-Name" with
  | some name => { event with Name := name }
  | none => event

/-- The method `Dispatch`: the outcome of the unit of work it submits, run by
a worker against the listener map `ed` as it is when the worker runs it. -/
def Dispatch (ed : EventDispatcher) (event : Event) : Delivery :=
  unitOfWork ed (effectiveEvent event)

/-- The listeners in delivery order for `event`: the slice under `"*"`
followed by the slice under the effective name. -/
def deliveryOrder (ed : EventDispatcher) (event : Event) : List EventListener :=
  (ed.listeners "*").getD [] ++ (ed.listeners (effectiveEvent event).Name).getD []

/-! ## pool/pool.go: `Get` and `Put` as interleaved steps

Each goroutine is a program counter; one step is one access to shared state:
an atomic load or add on `openCount`, a factory call, a `select` on the idle
channel, a heartbeat, a lock of `p.mu`, a `cond.Wait` or `cond.Signal`. -/

/-- What the network does: `net id` answers heartbeats on socket `id`,
`dial k` tells whether the `k`-th call of the factory (`newConnection`: dial,
`auth`, `+OK accepted`) succeeds, `now` is the clock reading. -/
structure Env where
  net : Nat → Bool
  dial : Nat → Bool
  now : Int

/-- The errors `Get` can return. -/
inductive GetError where
  | ErrPoolClosed
  | ErrTimeout
  | reachMaxOpen
  | createFailed
  deriving DecidableEq, Repr

/-- The two results of `Get`: a pointer to a connection, or an error. -/
inductive GetResult where
  | ok (conn : Nat)
  | err (e : GetError)
  deriving DecidableEq, Repr

/-- Program points of `Get` (with `createConnection` inlined). -/
inductive GetPc where
  /-- `if p.closed`, then `atomic.AddInt64(&p.waitCount, 1)` -/
  | entry
  /-- the first `select` on `p.pool` -/
  | firstSelect
  /-- `conn.IsValid()` on the connection just received -/
  | validate (conn : Nat)
  /-- `conn.Close(); atomic.AddInt32(&p.openCount, -1)` -/
  | discard (conn : Nat)
  /-- `atomic.LoadInt32(&p.openCount) < int32(MaxOpen)` in the `default` arm -/
  | firstLoad
  /-- `createConnection`: `atomic.LoadInt32(&p.openCount) >= int32(MaxOpen)` -/
  | createLoad
  /-- `createConnection`: `p.factory()` -/
  | createFactory
  /-- `createConnection`: `atomic.AddInt32(&p.openCount, 1)` -/
  | createAdd (conn : Nat)
  /-- top of the wait loop: `select { case <-ctx.Done(): ...; default: ...` -/
  | loopTop
  /-- `p.mu.Lock()` followed by the entry into `p.cond.Wait()`, which
  releases the mutex again -/
  | lock
  /-- parked inside `p.cond.Wait()` -/
  | waiting
  /-- signalled: `Wait` takes the mutex again and returns, then
  `p.mu.Unlock()` and the inner `select` on `p.pool` -/
  | woken
  /-- `Get` has returned -/
  | returned (r : GetResult)
  deriving DecidableEq, Repr

/-- Program points of `Put`. -/
inductive PutPc where
  /-- `if p.closed || !conn.IsValid()`, then `conn.Close()` or the time stamp -/
  | entry (conn : Nat)
  /-- `atomic.AddInt32(&p.openCount, -1)` -/
  | decrement
  /-- `select { case p.pool <- conn: ...; default: conn.Close() ...` -/
  | send (conn : Nat)
  /-- `p.cond.Signal()` -/
  | signal
  /-- `Put` has returned -/
  | returned
  deriving DecidableEq, Repr

/-- A goroutine running `Get(ctx)` (with the state of `ctx.Done()`) or `Put`. -/
inductive Thread where
  | get (ctxDone : Bool) (pc : GetPc)
  | put (pc : PutPc)
  deriving DecidableEq, Repr

/-- The pool with its connection objects and the goroutines working on it.
`waiters` lists the threads parked in `cond.Wait`, longest-waiting first;
`dials` counts factory calls and gives the address (and socket id) of the
next connection. -/
structure System where
  p : connectionPoolImpl
  heap : Heap
  threads : List Thread
  waiters : List Nat
  dials : Nat

/-- A heap in which nothing has been allocated yet. -/
def emptyHeap : Heap :=
  fun k => { id := k, lastUsed := 0, alive := false, sockClosed := false }

/-- The field `factory`: `newConnection(config)`, the `k`-th call.  On success
the new object, to be stored at address `k`. -/
def factory (env : Env) (k : Nat) : Option Connection :=
  if env.dial k then
    some { id := k, lastUsed := env.now, alive := true, sockClosed := false }
  else none

/-- The method `initIdleConnections`, with `n` iterations left.  A failed
dial is skipped; `p.pool <- conn` is a blocking send, so on a full channel the
call never returns (`none`). -/
def initIdleConnections (env : Env) : Nat → System → Option System
  | 0, s => some s
  | n + 1, s =>
    match factory env s.dials with
    | none => initIdleConnections env n { s with dials := s.dials + 1 }
    | some c =>
      if s.p.pool.length < s.p.capacity then
        initIdleConnections env n
          { s with
            p := { s.p with pool := s.p.pool ++ [s.dials],
                            openCount := int32 (s.p.openCount + 1) },
            heap := s.heap.store s.dials c,
            dials := s.dials + 1 }
      else none

/-- The constructor `NewConnectionPool`: `none` when `make(chan, MaxOpen)`
panics on a negative size or the warm-up blocks for ever. -/
def NewConnectionPool (env : Env) (config : PoolConfig) : Option System :=
  if config.MaxOpen < 0 then none
  else
    initIdleConnections env config.MaxIdle.toNat
      { p := { config := config, pool := [], openCount := 0, waitCount := 0,
               closed := false, mu := false, signals := 0 },
        heap := emptyHeap, threads := [], waiters := [], dials := 0 }

/-- A return of `Get`: the deferred function lowers `waitCount` again. -/
def finishGet (r : GetResult) (s : System) : GetPc × System :=
  (.returned r, { s with p := { s.p with waitCount := s.p.waitCount - 1 } })

/-- One step of the goroutine `tid` running `Get`. -/
def stepGet (env : Env) (tid : Nat) (ctxDone : Bool) (s : System) : GetPc → GetPc × System
  | .entry =>
    if s.p.closed then (.returned (.err .ErrPoolClosed), s)
    else (.firstSelect, { s with p := { s.p with waitCount := s.p.waitCount + 1 } })
  | .firstSelect =>
    match s.p.pool with
    | conn :: rest => (.validate conn, { s with p := { s.p with pool := rest } })
    | [] => (.firstLoad, s)
  | .validate conn =>
    let r := (s.heap conn).IsValid env.net
    if r.1 then finishGet (.ok conn) { s with heap := s.heap.store conn r.2 }
    else (.discard conn, { s with heap := s.heap.store conn r.2 })
  | .discard conn =>
    (.createLoad,
      { s with
        p := { s.p with openCount := int32 (s.p.openCount - 1) },
        heap := s.heap.store conn (s.heap conn).Close })
  | .firstLoad =>
    if s.p.openCount < int32 s.p.config.MaxOpen then (.createLoad, s) else (.loopTop, s)
  | .createLoad =>
    if s.p.openCount ≥ int32 s.p.config.MaxOpen then finishGet (.err .reachMaxOpen) s
    else (.createFactory, s)
  | .createFactory =>
    match factory env s.dials with
    | none => finishGet (.err .createFailed) { s with dials := s.dials + 1 }
    | some c =>
      (.createAdd s.dials, { s with heap := s.heap.store s.dials c, dials := s.dials + 1 })
  | .createAdd conn =>
    finishGet (.ok conn) { s with p := { s.p with openCount := int32 (s.p.openCount + 1) } }
  | .loopTop =>
    if ctxDone then finishGet (.err .ErrTimeout) s
    else (.lock, s)
  | .lock =>
    if s.p.mu then (.lock, s)
    else (.waiting, { s with waiters := s.waiters ++ [tid] })
  | .waiting => (.waiting, s)
  | .woken =>
    if s.p.mu then (.woken, s)
    else
      match s.p.pool with
      | conn :: rest => (.validate conn, { s with p := { s.p with pool := rest } })
      | [] => (.loopTop, s)
  | .returned r => (.returned r, s)

/-- The call `p.cond.Signal()`: the longest-waiting goroutine, if any, leaves
`cond.Wait`. -/
def condSignal (s : System) : System :=
  match s.waiters with
  | [] => { s with p := { s.p with signals := s.p.signals + 1 } }
  | w :: ws =>
    { s with
      p := { s.p with signals := s.p.signals + 1 },
      waiters := ws,
      threads :=
        match s.threads[w]? with
        | some (.get d .waiting) => s.threads.set w (.get d .woken)
        | _ => s.threads }

/-- One step of a goroutine running `Put`. -/
def stepPut (env : Env) (s : System) : PutPc → PutPc × System
  | .entry conn =>
    if s.p.closed then
      (.decrement, { s with heap := s.heap.store conn (s.heap conn).Close })
    else
      let r := (s.heap conn).IsValid env.net
      if !r.1 then (.decrement, { s with heap := s.heap.store conn r.2.Close })
      else (.send conn, { s with heap := s.heap.store conn { r.2 with lastUsed := env.now } })
  | .decrement =>
    (.returned, { s with p := { s.p with openCount := int32 (s.p.openCount - 1) } })
  | .send conn =>
    if s.p.pool.length < s.p.capacity then
      (.signal, { s with p := { s.p with pool := s.p.pool ++ [conn] } })
    else (.decrement, { s with heap := s.heap.store conn (s.heap conn).Close })
  | .signal => (.returned, condSignal s)
  | .returned => (.returned, s)

/-- What the scheduler or the environment does next: let goroutine `tid`
take one step, or cancel the context of goroutine `tid`. -/
inductive Action where
  | run (tid : Nat)
  | cancel (tid : Nat)
  deriving DecidableEq, Repr

/-- One action on the system. -/
def step (env : Env) (s : System) : Action → System
  | .cancel tid =>
    match s.threads[tid]? with
    | some (.get _ pc) => { s with threads := s.threads.set tid (.get true pc) }
    | _ => s
  | .run tid =>
    match s.threads[tid]? with
    | some (.get d pc) =>
      let r := stepGet env tid d s pc
      { r.2 with threads := r.2.threads.set tid (.get d r.1) }
    | some (.put pc) =>
      let r := stepPut env s pc
      { r.2 with threads := r.2.threads.set tid (.put r.1) }
    | none => s

/-- A whole interleaving, action by action. -/
def runSchedule (env : Env) (s : System) (sched : List Action) : System :=
  sched.foldl (step env) s

/-! ## Strings (package `strings`, `strconv`) -/

/-- The bytes of an ASCII string literal. -/
def bytes (s : String) : List Nat :=
  s.toList.map Char.toNat

/-- The UTF-8 encodings of the runes for which `unicode.IsSpace` holds:
tab, LF, VT, FF, CR, space, U+0085, U+00A0, U+1680, U+2000..U+200A, U+2028,
U+2029, U+202F, U+205F, U+3000. -/
def spaceRunes : List (List Nat) :=
  [[9], [10], [11], [12], [13], [32],
   [0xC2, 0x85], [0xC2, 0xA0], [0xE1, 0x9A, 0x80],
   [0xE2, 0x80, 0x80], [0xE2, 0x80, 0x81], [0xE2, 0x80, 0x82], [0xE2, 0x80, 0x83],
   [0xE2, 0x80, 0x84], [0xE2, 0x80, 0x85], [0xE2, 0x80, 0x86], [0xE2, 0x80, 0x87],
   [0xE2, 0x80, 0x88], [0xE2, 0x80, 0x89], [0xE2, 0x80, 0x8A],
   [0xE2, 0x80, 0xA8], [0xE2, 0x80, 0xA9], [0xE2, 0x80, 0xAF],
   [0xE2, 0x81, 0x9F], [0xE3, 0x80, 0x80]]

/-- Number of bytes of the white-space rune that `s` starts with, 0 when it
starts with none. -/
def leadingSpace (s : List Nat) : Nat :=
  match spaceRunes.find? (fun r => r.isPrefixOf s) with
  | some r => r.length
  | none => 0

/-- The same for a string given back to front: number of bytes of the
white-space rune that the original string ends with, 0 when it ends with
none. -/
def trailingSpace (s : List Nat) : Nat :=
  match spaceRunes.find? (fun r => r.reverse.isPrefixOf s) with
  | some r => r.length
  | none => 0

/-- Strips white-space runes from the front, as measured by `width`; `n`
bounds the number of runes (the length of the string is enough). -/
def trimFront (width : List Nat → Nat) : Nat → List Nat → List Nat
  | 0, s => s
  | n + 1, s => if width s = 0 then s else trimFront width n (s.drop (width s))

/-- The function `strings.TrimSpace`: leading white space is removed first,
then trailing white space of what is left. -/
def TrimSpace (s : List Nat) : List Nat :=
  let t := trimFront leadingSpace s.length s
  (trimFront trailingSpace t.length t.reverse).reverse

/-- The function `strings.HasPrefix`. -/
def HasPrefix (s pre : List Nat) : Bool :=
  pre.isPrefixOf s

/-- The call `strings.SplitN(s, sep, 2)` for a one-byte separator: the part
before the first separator and the part after it, or `s` alone when it holds
no separator. -/
def SplitN2 (s : List Nat) (sep : Nat) : List (List Nat) :=
  match s.span (fun b => b != sep) with
  | (_, []) => [s]
  | (before, _ :: after) => [before, after]

/-- The digit loop of `strconv.ParseUint(s, 10, 64)`, with `n` the value
accumulated so far: `none` (syntax error) on a byte that is not a decimal
digit, and `2^64 - 1` (range error) as soon as the value overflows, the bytes
after that point not being looked at. -/
def parseUintLoop : List Nat → Nat → Option Nat
  | [], n => some n
  | c :: cs, n =>
    if c < 48 ∨ 57 < c then none
    else if n ≥ (2 ^ 64 - 1) / 10 + 1 then some (2 ^ 64 - 1)
    else if 10 * n + (c - 48) > 2 ^ 64 - 1 then some (2 ^ 64 - 1)
    else parseUintLoop cs (10 * n + (c - 48))

/-- The value returned by `strconv.ParseUint(s, 10, 64)`, `none` on a syntax
error (the empty string included). -/
def ParseUint (s : List Nat) : Option Nat :=
  if s = [] then none else parseUintLoop s 0

/-- The value returned by `strconv.Atoi` (64-bit `int`), the error being
dropped as `ReadMessage` does: the value of `ParseInt(s, 10, 0)`, with which
the fast path for short strings agrees.  It is 0 on a syntax error and the
nearest bound of the `int` range on a range error. -/
def Atoi (s : List Nat) : Int :=
  match s with
  | [] => 0
  | 45 :: ds =>
    match ParseUint ds with
    | none => 0
    | some un => if un > 2 ^ 63 then -(2 ^ 63) else -(un : Int)
  | 43 :: ds =>
    match ParseUint ds with
    | none => 0
    | some un => if un ≥ 2 ^ 63 then 2 ^ 63 - 1 else (un : Int)
  | _ =>
    match ParseUint s with
    | none => 0
    | some un => if un ≥ 2 ^ 63 then 2 ^ 63 - 1 else (un : Int)

/-! ## The socket and `bufio.Reader` -/

/-- The call `c.conn.Read(p)` with `len(p) = k` on a socket whose incoming
bytes arrive in the batches `wire`: the next batch, or its first `k` bytes when
it is longer; `none` (EOF or deadline) when nothing more arrives.  Empty
batches are no reads at all. -/
def connRead (k : Nat) : List (List Nat) → Option (List Nat × List (List Nat))
  | [] => none
  | [] :: rest => connRead k rest
  | (b :: bs) :: rest =>
    if (b :: bs).length ≤ k then some (b :: bs, rest)
    else some ((b :: bs).take k, (b :: bs).drop k :: rest)

/-- The struct `bufio.Reader`: `buf` is the unread part `b.buf[b.r:b.w]` of its
buffer, `rd` the socket underneath. -/
structure Reader where
  buf : List Nat
  rd : List (List Nat)
  deriving DecidableEq, Repr

/-- The constant `defaultBufSize` of `bufio`. -/
def bufSize : Nat := 4096

/-- The call `bufio.NewReader(c.conn)`: an empty buffer over the socket. -/
def NewReader (wire : List (List Nat)) : Reader :=
  { buf := [], rd := wire }

/-- Result of a read on a `bufio.Reader`: the value and the reader after it,
or an error. -/
inductive ReadResult (α : Type) where
  | ok (val : α) (rd : Reader)
  | err
  deriving DecidableEq, Repr

/-- Splits `s` after the first occurrence of `delim`: the part up to and
including it, and the rest. -/
def cutAfter (delim : Nat) : List Nat → Option (List Nat × List Nat)
  | [] => none
  | b :: s =>
    if b = delim then some ([b], s)
    else
      match cutAfter delim s with
      | some (line, rest) => some (b :: line, rest)
      | none => none

/-- The loop of `(*Reader).ReadString` (`collectFragments` over `ReadSlice`):
search the buffer for `delim`; when it is absent and the buffer is full, move
the whole buffer to the fragments collected in `acc`; otherwise `fill` the
free space with one read.  A read error ends the call.  `fuel` bounds the
iterations. -/
def readStringLoop (delim : Nat) : Nat → List Nat → Reader → ReadResult (List Nat)
  | 0, _, _ => .err
  | fuel + 1, acc, r =>
    match cutAfter delim r.buf with
    | some (line, rest) => .ok (acc ++ line) { r with buf := rest }
    | none =>
      if r.buf.length ≥ bufSize then
        readStringLoop delim fuel (acc ++ r.buf) { r with buf := [] }
      else
        match connRead (bufSize - r.buf.length) r.rd with
        | none => .err
        | some (data, rest) => readStringLoop delim fuel acc { buf := r.buf ++ data, rd := rest }

/-- The method `(*Reader).ReadString`.  Every iteration but the last either
takes bytes off the socket or empties a full buffer, so twice the number of
bytes still to arrive, plus two, bounds the iterations. -/
def ReadString (r : Reader) (delim : Nat) : ReadResult (List Nat) :=
  readStringLoop delim (2 * r.rd.flatten.length + 2) [] r

/-- The loop of `io.ReadFull` over `(*Reader).Read`, with `need` bytes still
to deliver: copy from the buffer when it holds bytes; on an empty buffer read
straight into the destination when `need` is at least the buffer size, and
otherwise refill the buffer with one read. -/
def readFullLoop : Nat → Nat → List Nat → Reader → ReadResult (List Nat)
  | 0, _, _, _ => .err
  | fuel + 1, need, acc, r =>
    if need = 0 then .ok acc r
    else
      match r.buf with
      | [] =>
        if need ≥ bufSize then
          match connRead need r.rd with
          | none => .err
          | some (data, rest) =>
            readFullLoop fuel (need - data.length) (acc ++ data) { buf := [], rd := rest }
        else
          match connRead bufSize r.rd with
          | none => .err
          | some (data, rest) => readFullLoop fuel need acc { buf := data, rd := rest }
      | b :: bs =>
        readFullLoop fuel (need - min need (b :: bs).length) (acc ++ (b :: bs).take need)
          { r with buf := (b :: bs).drop need }

/-- The call `io.ReadFull(reader, body)` with `len(body) = n`. -/
def ReadFull (r : Reader) (n : Nat) : ReadResult (List Nat) :=
  readFullLoop (2 * n + 2) n [] r

/-! ## pool/connection.go: `ReadMessage` -/

/-- The literal `"Content-Length:"`. -/
def contentLengthKey : List Nat := bytes "Content-Length:"

/-- The statement that parses `Content-Length` on the trimmed line `line`,
returning the new value of `contentLength`. -/
def parseContentLength (line : List Nat) (contentLength : Int) : Int :=
  if HasPrefix line contentLengthKey then
    match SplitN2 line 58 with
    | [_, value] => Atoi (TrimSpace value)
    | _ => contentLength
  else contentLength

/-- The header loop of `ReadMessage`: `buffer` and `contentLength` are the
local variables; each iteration reads one line, so `fuel` is bounded by the
number of bytes still to read plus one. -/
def readHeader : Nat → Reader → List Nat → Int → ReadResult (List Nat × Int)
  | 0, _, _, _ => .err
  | fuel + 1, r, buffer, contentLength =>
    match ReadString r 10 with
    | .err => .err
    | .ok raw r1 =>
      let line := TrimSpace raw
      let buffer1 := buffer ++ line ++ [10]
      if line = [] then .ok (buffer1, contentLength) r1
      else readHeader fuel r1 buffer1 (parseContentLength line contentLength)

/-- The two failures of `ReadMessage`. -/
inductive ReadError where
  | headerFailed
  | bodyFailed
  deriving DecidableEq, Repr

/-- What `ReadMessage` returns, with the batches left on the socket after a
successful call (the buffered reader and whatever it still holds are
dropped when the call returns). -/
inductive ReadOutcome where
  | frame (data : List Nat) (wire : List (List Nat))
  | failed (e : ReadError)
  deriving DecidableEq, Repr

/-- The method `(*Connection).ReadMessage` on a connection whose socket will
deliver the batches `wire`.  Returns the outcome and the connection
afterwards (`alive` is cleared on failure). -/
def ReadMessage (c : Connection) (wire : List (List Nat)) : ReadOutcome × Connection :=
  let reader := NewReader wire
  match readHeader (wire.flatten.length + 1) reader [] 0 with
  | .err => (.failed .headerFailed, { c with alive := false })
  | .ok (buffer, contentLength) r1 =>
    if contentLength > 0 then
      match ReadFull r1 contentLength.toNat with
      | .err => (.failed .bodyFailed, { c with alive := false })
      | .ok body r2 => (.frame (buffer ++ body) r2.rd, c)
    else (.frame buffer r1.rd, c)

/-! ## command/builder.go -/

/-- The type `CommandType`. -/
inductive CommandType where
  | API
  | BGAPI
  | MSG
  | EVENT
  deriving DecidableEq, Repr

/-- The struct `Command`.  The maps `params` and `headers` are the lists of
their entries in the order in which `range` visits them during `Build` (Go
leaves that order unspecified, so any order may occur).  The channel
`resultChan` is left out. -/
structure Command where
  cmdType : CommandType
  command : List Nat
  params : List (List Nat × List Nat)
  headers : List (List Nat × List Nat)
  async : Bool
  timeout : Int
  deriving DecidableEq, Repr

/-- The verb line written by `Build`, without its newline: the word for the
command type and `c.command`. -/
def verbLine (c : Command) : List Nat :=
  (match c.cmdType with
    | .API => []
    | .BGAPI => bytes "bgapi "
    | .MSG => bytes "sendmsg "
    | .EVENT => bytes "event ") ++ c.command

/-- A header line `fmt.Sprintf("%s: %s\n", k, v)`, without its newline. -/
def headerLine (kv : List Nat × List Nat) : List Nat :=
  kv.1 ++ bytes ": " ++ kv.2

/-- A parameter line `fmt.Sprintf("%s=%s\n", k, v)`, without its newline. -/
def paramLine (kv : List Nat × List Nat) : List Nat :=
  kv.1 ++ bytes "=" ++ kv.2

/-- Lines written one after the other, each followed by a newline. -/
def joinLines (ls : List (List Nat)) : List Nat :=
  (ls.map (fun l => l ++ [10])).flatten

/-- The method `Build`. -/
def Build (c : Command) : List Nat :=
  verbLine c ++ [10] ++
  joinLines (c.headers.map headerLine) ++
  (if c.params.length > 0 then [10] ++ joinLines (c.params.map paramLine) else []) ++
  [10]

/-! ## Frame layout on the byte stream -/

/-- The body length declared by a header block, given its lines as
`ReadMessage` sees them (trimmed): the value of the last line that starts
with `Content-Length:`, parsed by `Atoi` after trimming, and 0 when no line
does. -/
def declaredLength (lines : List (List Nat)) : Int :=
  match (lines.filter (fun l => HasPrefix l contentLengthKey)).getLast? with
  | none => 0
  | some l => Atoi (TrimSpace (l.drop contentLengthKey.length))

/-- The reading "first occurrence wins" of the same header block: the value
of the first line that starts with `Content-Length:`. -/
def declaredLengthFirst (lines : List (List Nat)) : Int :=
  match (lines.filter (fun l => HasPrefix l contentLengthKey)).head? with
  | none => 0
  | some l => Atoi (TrimSpace (l.drop contentLengthKey.length))

/-! ## Sample states -/

/-- A heap with two live connections at the addresses 0 and 1, last used
at time 0. -/
def witnessHeap : Heap :=
  fun k => { id := k, lastUsed := 0, alive := true, sockClosed := false }

/-- An open pool of capacity 2 that holds connection 0 idle, with both
connections counted in `openCount`. -/
def witnessPool : connectionPoolImpl :=
  { config := { MaxOpen := 2, MaxIdle := 2, Timeout := 0, Host := "", Port := 0,
                Password := "", IdleTimeout := 10 },
    pool := [0], openCount := 2, waitCount := 0, closed := false, mu := false, signals := 0 }

/-! # Properties -/

/-! ## Pool: `Put` -/

/-- On an `int32` above its minimum, `atomic.AddInt32(&x, -1)` lowers the
value by exactly one. -/
theorem int32_pred (x : Int) (h : -(2 ^ 31) < x ∧ x < 2 ^ 31) : int32 (x - 1) = x - 1 := by
  unfold int32
  norm_num at h ⊢
  omega

/-- C2 (counterexample): a closed pool whose `openCount` is the smallest
`int32`.  `Put` closes the Transport and `atomic.AddInt32(&p.openCount, -1)`
wraps: open-count becomes 2147483647, it does not decrease by one. -/
theorem Put_wraps_at_MinInt32 :
    (Put (fun _ => true) 0 emptyHeap
      { config := { MaxOpen := 2, MaxIdle := 2, Timeout := 0, Host := "", Port := 0,
                    Password := "", IdleTimeout := 0 },
        pool := [], openCount := -2147483648, waitCount := 0, closed := true, mu := false,
        signals := 0 } 0).1.openCount = 2147483647 := by
  decide

/-- C2 (amended): for every pool state whose open-count lies above the
smallest `int32`, and every Transport: `Put` touches no other Transport; on a
closed pool or with a Transport that `IsValid` reports invalid it closes the
Transport, lowers open-count by exactly one and leaves the idle channel (and
the signal count) unchanged; otherwise the Transport is stamped with the
current time and, when the idle channel is below its capacity, its pointer
is appended to the channel with open-count unchanged and exactly one `Signal`
issued, while at capacity it is closed, open-count drops by exactly one and
the idle channel is unchanged. -/
theorem Put_behaviour (net : Nat → Bool) (now : Int) (heap : Heap) (p : connectionPoolImpl)
    (conn : Nat) (hr : -(2 ^ 31) < p.openCount ∧ p.openCount < 2 ^ 31) :
    (∀ k, k ≠ conn → (Put net now heap p conn).2 k = heap k) ∧
    (if p.closed = true ∨ ((heap conn).IsValid net).1 = false then
      ((Put net now heap p conn).2 conn).alive = false ∧
      ((Put net now heap p conn).2 conn).sockClosed = true ∧
      (Put net now heap p conn).1.openCount = p.openCount - 1 ∧
      (Put net now heap p conn).1.pool = p.pool ∧
      (Put net now heap p conn).1.signals = p.signals
    else if p.pool.length < p.capacity then
      (Put net now heap p conn).2 conn = { heap conn with lastUsed := now } ∧
      (Put net now heap p conn).1.pool = p.pool ++ [conn] ∧
      (Put net now heap p conn).1.openCount = p.openCount ∧
      (Put net now heap p conn).1.signals = p.signals + 1
    else
      (Put net now heap p conn).2 conn =
        { heap conn with lastUsed := now, alive := false, sockClosed := true } ∧
      (Put net now heap p conn).1.openCount = p.openCount - 1 ∧
      (Put net now heap p conn).1.pool = p.pool ∧
      (Put net now heap p conn).1.signals = p.signals) := by
  have hdec := int32_pred p.openCount hr
  constructor
  · intro k hk
    unfold Put
    cases hc : p.closed <;> cases hv : ((heap conn).IsValid net).1 <;>
      by_cases hl : p.pool.length < p.capacity <;> simp [Heap.store, hk, hv, hl]
  · unfold Put Connection.IsValid Connection.Close
    cases hc : p.closed <;> cases ha : (heap conn).alive <;> cases hn : net (heap conn).id <;>
      by_cases hl : p.pool.length < p.capacity <;> simp [Heap.store, hl, hc, ha, hn, hdec]

/-- Witness for `Put_behaviour`: an open pool with open-count 2 and room in
the idle channel, and a Transport that answers the heartbeat. -/
theorem Put_behaviour_witness :
    (Put (fun _ => true) 5 witnessHeap witnessPool 1).2 1 =
        { id := 1, lastUsed := 5, alive := true, sockClosed := false } ∧
    (Put (fun _ => true) 5 witnessHeap witnessPool 1).1.pool = [0, 1] ∧
    (Put (fun _ => true) 5 witnessHeap witnessPool 1).1.openCount = 2 ∧
    (Put (fun _ => true) 5 witnessHeap witnessPool 1).1.signals = 1 := by
  have h := (Put_behaviour (fun _ => true) 5 witnessHeap witnessPool 1 (by decide)).2
  rw [if_neg (by decide), if_pos (by decide)] at h
  exact h

/-! ## Pool: eviction -/

theorem expired_store_Close (cfg : PoolConfig) (now : Int) (heap : Heap) (x a : Nat) :
    expired cfg now ((heap.store x (heap x).Close) a) = expired cfg now (heap a) := by
  unfold Heap.store expired Connection.Close
  by_cases h : a = x
  · simp [h]
  · simp [h]

/-- The scan of `evictor` over an idle channel that starts with `xs`: the
pointers of `xs` whose connection is not expired move to the end of the
channel in their order, the expired ones leave it and their connections are
closed, and `openCount` takes one wrapping decrement per expired pointer. -/
theorem evictLoop_scan (now : Int) (xs : List Nat) :
    ∀ (p : connectionPoolImpl) (heap : Heap) (ys : List Nat), p.pool = xs ++ ys →
      evictLoop now xs.length p heap =
        ({ p with
            pool := ys ++ xs.filter (fun a => !expired p.config now (heap a)),
            openCount :=
              (fun x => int32 (x - 1))^[(xs.filter
                (fun a => expired p.config now (heap a))).length] p.openCount },
          fun k => if k ∈ xs ∧ expired p.config now (heap k) = true then (heap k).Close
                   else heap k) := by
  induction xs with
  | nil =>
    intro p heap ys h
    obtain ⟨cfg, pool, oc, wc, cl, mu, sg⟩ := p
    simp only [List.nil_append] at h
    subst h
    simp [evictLoop]
  | cons x xs ih =>
    intro p heap ys h
    obtain ⟨cfg, pool, oc, wc, cl, mu, sg⟩ := p
    simp only at h
    subst h
    simp only [List.length_cons, evictLoop, List.cons_append]
    by_cases hx : expired cfg now (heap x) = true
    · simp only [hx, if_true]
      rw [ih _ _ ys rfl]
      simp only [expired_store_Close, List.filter_cons, hx, Bool.not_true, Bool.false_eq_true,
        if_false, if_true, List.length_cons, Function.iterate_succ_apply, Prod.mk.injEq,
        true_and]
      funext k
      by_cases hk : k = x
      · subst hk
        simp [Heap.store, hx, Connection.Close]
      · simp [Heap.store, hk]
    · simp only [hx, Bool.false_eq_true, if_false]
      rw [ih _ _ (ys ++ [x]) (by simp)]
      simp only [List.filter_cons, hx, Bool.false_eq_true, if_false, Bool.not_false, if_true,
        List.append_assoc, List.singleton_append, Prod.mk.injEq, true_and]
      funext k
      by_cases hk : k = x
      · subst hk
        simp [hx]
      · simp [hk]

/-- While `p.mu` is free, one pass of `evictor` on an open pool takes the
mutex (and keeps it), removes from the idle channel exactly the pointers
whose connection is expired, closes those connections whatever their `alive`
flag, keeps the other pointers in their order, and applies one wrapping
decrement to `openCount` per pointer removed. -/
theorem evictor_unlocked (now : Int) (heap : Heap) (p : connectionPoolImpl)
    (hc : p.closed = false) (hm : p.mu = false) :
    evictor now heap p =
      .done ({ p with
                mu := true,
                pool := p.pool.filter (fun a => !expired p.config now (heap a)),
                openCount :=
                  (fun x => int32 (x - 1))^[(p.pool.filter
                    (fun a => expired p.config now (heap a))).length] p.openCount },
             fun k => if k ∈ p.pool ∧ expired p.config now (heap k) = true then (heap k).Close
                      else heap k) := by
  unfold evictor
  rw [if_neg (by simp [hc]), if_neg (by simp [hm]),
    evictLoop_scan now p.pool { p with mu := true } heap [] (by simp)]
  simp

/-- C8 (failing input): a pool built by `NewConnectionPool` with one idle
Transport last used at time 0 and `IdleTimeout` = 40 s.  The first tick of
`healthCheck` (30 s) keeps the Transport and leaves `p.mu` locked, because
its `Unlock` is deferred inside the loop.  At the first tick of `evictor`
(60 s) the Transport has been idle longer than `IdleTimeout`, but the pass is
stuck in `p.mu.Lock()`: nothing is removed or closed and open-count stays 1. -/
theorem evictor_blocked_after_healthCheck :
    (NewConnectionPool { net := fun _ => true, dial := fun _ => true, now := 0 }
        { MaxOpen := 1, MaxIdle := 1, Timeout := 0, Host := "", Port := 0,
          Password := "", IdleTimeout := 40000000000 }).map
      (fun s0 =>
        (healthCheck (fun _ => true) (fun _ => 30000000000) s0.heap s0.p).map
          (fun s => (s.p.pool, s.p.openCount, s.p.mu))) =
      some (.done ([0], 1, true)) ∧
    (NewConnectionPool { net := fun _ => true, dial := fun _ => true, now := 0 }
        { MaxOpen := 1, MaxIdle := 1, Timeout := 0, Host := "", Port := 0,
          Password := "", IdleTimeout := 40000000000 }).map
      (fun s0 =>
        (healthCheck (fun _ => true) (fun _ => 30000000000) s0.heap s0.p).map
          (fun s => (s.heap 0, expired s.p.config 60000000000 (s.heap 0)))) =
      some (.done ({ id := 0, lastUsed := 0, alive := true, sockClosed := false }, true)) ∧
    (NewConnectionPool { net := fun _ => true, dial := fun _ => true, now := 0 }
        { MaxOpen := 1, MaxIdle := 1, Timeout := 0, Host := "", Port := 0,
          Password := "", IdleTimeout := 40000000000 }).map
      (fun s0 =>
        (healthCheck (fun _ => true) (fun _ => 30000000000) s0.heap s0.p).map
          (fun s =>
            (evictor 60000000000 s.heap s.p).map (fun r => (r.1.pool, r.1.openCount)))) =
      some (.done .blocked) := by
  decide

/-! ## Pool: health check -/

/-- C9 (failing input): an open pool whose idle set holds two Transports that
both fail the heartbeat.  The pass probes and drops only the first, because
the loop bound `len(p.pool)` has shrunk to 1 when `i` becomes 1; the second
stays in the idle set unprobed (its object is untouched) and open-count drops
by one, not two. -/
theorem healthCheck_skips_entry :
    (healthCheck (fun _ => false) (fun _ => 0)
      (fun k => { id := k, lastUsed := 0, alive := true, sockClosed := false })
      { config := { MaxOpen := 2, MaxIdle := 2, Timeout := 0, Host := "", Port := 0,
                    Password := "", IdleTimeout := 300000000000 },
        pool := [1, 2], openCount := 2, waitCount := 0, closed := false, mu := false,
        signals := 0 }).map
      (fun s => (s.p.pool, s.p.openCount, s.probed, s.heap 1, s.heap 2)) =
    .done ([2], 1, [1],
      { id := 1, lastUsed := 0, alive := false, sockClosed := true },
      { id := 2, lastUsed := 0, alive := true, sockClosed := false }) := by
  decide

/-! ## Dispatcher -/

theorem invokeAll_of_no_panic (event : Event) (ls : List EventListener)
    (h : ∀ l ∈ ls, l.panics event = false) :
    invokeAll event ls = { invoked := ls.map (·.id), panicked := false } := by
  induction ls with
  | nil => rfl
  | cons l ls ih =>
    have hl : l.panics event = false := h l (by simp)
    have ih1 := ih (fun x hx => h x (by simp [hx]))
    simp [invokeAll, hl, ih1]

theorem invokeAll_of_panic (event : Event) (pre post : List EventListener) (l : EventListener)
    (hpre : ∀ x ∈ pre, x.panics event = false) (hl : l.panics event = true) :
    invokeAll event (pre ++ l :: post) =
      { invoked := pre.map (·.id) ++ [l.id], panicked := true } := by
  induction pre with
  | nil => simp [invokeAll, hl]
  | cons x pre ih =>
    have hx : x.panics event = false := hpre x (by simp)
    have ih1 := ih (fun y hy => hpre y (by simp [hy]))
    simp [invokeAll, hx, ih1]

theorem registerAll_append (calls : List (String × EventListener)) (c : String × EventListener) :
    registerAll (calls ++ [c]) = (registerAll calls).Register c.1 c.2 := by
  simp [registerAll, List.foldl_append]

/-- The slice stored under `name` after a sequence of `Register` calls holds
the listeners registered under `name`, in registration order. -/
theorem registerAll_listeners (calls : List (String × EventListener)) (name : String) :
    ((registerAll calls).listeners name).getD [] =
      (calls.filter (fun c => decide (c.1 = name))).map (·.2) := by
  induction calls using List.reverseRecOn with
  | nil => rfl
  | append_singleton calls c ih =>
    rw [registerAll_append]
    by_cases hc : name = c.1
    · subst hc
      simp [EventDispatcher.Register, List.filter_append, ih]
    · have hc2 : ¬ c.1 = name := fun h => hc h.symm
      simp [EventDispatcher.Register, List.filter_append, ih, hc, hc2]

theorem unitOfWork_eq (ed : EventDispatcher) (event : Event) :
    unitOfWork ed event =
      (let r1 := invokeAll event ((ed.listeners "*").getD [])
       if r1.panicked then r1
       else
         let r2 := invokeAll event ((ed.listeners event.Name).getD [])
         { invoked := r1.invoked ++ r2.invoked, panicked := r2.panicked }) := by
  unfold unitOfWork
  cases h1 : ed.listeners "*" <;> cases h2 : ed.listeners event.Name <;>
    simp [invokeAll]

theorem invokeAll_append (event : Event) (xs ys : List EventListener) :
    invokeAll event (xs ++ ys) =
      if (invokeAll event xs).panicked then invokeAll event xs
      else { invoked := (invokeAll event xs).invoked ++ (invokeAll event ys).invoked,
             panicked := (invokeAll event ys).panicked } := by
  induction xs with
  | nil => simp [invokeAll]
  | cons x xs ih =>
    by_cases hx : x.panics event = true
    · simp [invokeAll, hx]
    · simp only [List.cons_append, invokeAll, hx, Bool.false_eq_true, if_false]
      rw [show xs.append ys = xs ++ ys from rfl, ih]
      by_cases hp : (invokeAll event xs).panicked = true <;> simp [hp]

/-- The unit of work is one pass over the delivery order. -/
theorem Dispatch_eq_invokeAll (ed : EventDispatcher) (event : Event) :
    Dispatch ed event = invokeAll (effectiveEvent event) (deliveryOrder ed event) := by
  unfold Dispatch deliveryOrder
  rw [unitOfWork_eq, invokeAll_append]

theorem filter_or_perm {α : Type} (p q : α → Bool) (l : List α)
    (h : ∀ a ∈ l, ¬ (p a = true ∧ q a = true)) :
    List.Perm (l.filter p ++ l.filter q) (l.filter (fun a => p a || q a)) := by
  induction l with
  | nil => simp
  | cons a l ih =>
    have ih1 := ih (fun b hb => h b (by simp [hb]))
    have ha := h a (by simp)
    cases hp : p a <;> cases hq : q a
    · simpa [List.filter_cons, hp, hq] using ih1
    · simp only [List.filter_cons, hp, hq, Bool.false_eq_true, if_false, if_true, Bool.or_true]
      exact (List.perm_middle.trans (List.Perm.cons a ih1))
    · simpa [List.filter_cons, hp, hq] using ih1
    · exact absurd ⟨hp, hq⟩ ha

/-- C6 (counterexample): two listeners registered for `CHANNEL_CREATE`, the
first of which panics.  The unit of work calls the first listener only; the
second listener registered under the event's name is not invoked. -/
theorem Dispatch_delivery_counterexample :
    Dispatch (registerAll [("CHANNEL_CREATE", { id := 1, panics := fun _ => true }),
                           ("CHANNEL_CREATE", { id := 2, panics := fun _ => false })])
        { Name := "CHANNEL_CREATE", Headers := [], Body := "", Raw := "" } =
      { invoked := [1], panicked := true } ∧
    2 ∉ (Dispatch (registerAll [("CHANNEL_CREATE", { id := 1, panics := fun _ => true }),
                                ("CHANNEL_CREATE", { id := 2, panics := fun _ => false })])
        { Name := "CHANNEL_CREATE", Headers := [], Body := "", Raw := "" }).invoked := by
  decide

/-- C6 (amended): after any sequence of `Register` calls in which the
listeners registered under `"*"` or under the event's effective name return
on the event, the unit of work submitted by `Dispatch` calls the listeners
registered under `"*"` in registration order, then those registered under the
effective name in registration order, and nothing else; the effective name is
the `Event-Name` header when present and `Name` otherwise; when the effective
name is not `"*"` every registration under `"*"` or under that name is called
exactly once. -/
theorem Dispatch_delivery_order (calls : List (String × EventListener)) (event : Event)
    (hret : ∀ c ∈ calls, c.1 = "*" ∨ c.1 = (effectiveEvent event).Name →
      c.2.panics (effectiveEvent event) = false) :
    (effectiveEvent event).Name = (event.Headers.lookup "Event-Name").getD event.Name ∧
    Dispatch (registerAll calls) event =
      { invoked :=
          (calls.filter (fun c => decide (c.1 = "*"))).map (·.2.id) ++
          (calls.filter (fun c => decide (c.1 = (effectiveEvent event).Name))).map (·.2.id),
        panicked := false } ∧
    ((effectiveEvent event).Name ≠ "*" →
      List.Perm (Dispatch (registerAll calls) event).invoked
        ((calls.filter
          (fun c => decide (c.1 = "*") || decide (c.1 = (effectiveEvent event).Name))).map
          (·.2.id))) := by
  have hname : (effectiveEvent event).Name =
      (event.Headers.lookup "Event-Name").getD event.Name := by
    unfold effectiveEvent
    cases List.lookup "Event-Name" event.Headers <;> rfl
  have hmain : Dispatch (registerAll calls) event =
      { invoked :=
          (calls.filter (fun c => decide (c.1 = "*"))).map (·.2.id) ++
          (calls.filter (fun c => decide (c.1 = (effectiveEvent event).Name))).map (·.2.id),
        panicked := false } := by
    rw [Dispatch_eq_invokeAll, invokeAll_of_no_panic]
    · simp [deliveryOrder, registerAll_listeners, Function.comp_def]
    · intro l hl
      simp only [deliveryOrder, registerAll_listeners, List.mem_append, List.mem_map,
        List.mem_filter] at hl
      rcases hl with ⟨c, ⟨hc, hn⟩, rfl⟩ | ⟨c, ⟨hc, hn⟩, rfl⟩
      · exact hret c hc (Or.inl (by simpa using hn))
      · exact hret c hc (Or.inr (by simpa using hn))
  refine ⟨hname, hmain, ?_⟩
  intro hne
  rw [hmain]
  simp only
  rw [← List.map_append]
  apply List.Perm.map
  apply filter_or_perm
  intro c _ hc
  simp only [decide_eq_true_eq] at hc
  exact hne (hc.2.symm.trans hc.1)

/-- Witness for `Dispatch_delivery_order`: a wildcard listener L1, a
`CHANNEL_CREATE` listener L2 and a panicking listener for another name,
dispatching a `CHANNEL_CREATE` event. -/
theorem Dispatch_delivery_order_witness :
    Dispatch (registerAll [("*", { id := 1, panics := fun _ => false }),
                           ("CHANNEL_CREATE", { id := 2, panics := fun _ => false }),
                           ("HEARTBEAT", { id := 3, panics := fun _ => true })])
        { Name := "CHANNEL_CREATE", Headers := [], Body := "", Raw := "" } =
      { invoked := [1, 2], panicked := false } :=
  (Dispatch_delivery_order
    [("*", { id := 1, panics := fun _ => false }),
     ("CHANNEL_CREATE", { id := 2, panics := fun _ => false }),
     ("HEARTBEAT", { id := 3, panics := fun _ => true })]
    { Name := "CHANNEL_CREATE", Headers := [], Body := "", Raw := "" }
    (by
      intro c hc hn
      simp only [List.mem_cons, List.mem_singleton, List.not_mem_nil, or_false] at hc
      rcases hc with rfl | rfl | rfl
      · rfl
      · rfl
      · exact absurd hn (by decide))).2.1

/-- C7 (counterexample): a wildcard listener that panics, followed by a
second wildcard listener and a `CHANNEL_CREATE` listener.  The unit of work
calls only the first listener and ends in its panic; the two listeners after
it are not called. -/
theorem Dispatch_panic_counterexample :
    Dispatch (registerAll [("*", { id := 1, panics := fun _ => true }),
                           ("*", { id := 2, panics := fun _ => false }),
                           ("CHANNEL_CREATE", { id := 3, panics := fun _ => false })])
        { Name := "CHANNEL_CREATE", Headers := [], Body := "", Raw := "" } =
      { invoked := [1], panicked := true } := by
  decide

/-- C7 (amended): when a listener in the delivery order panics on the event
and the listeners before it return, the unit of work has called exactly the
listeners up to and including the failing one, in delivery order, calls none
of the listeners after it, and itself ends in that panic (the failure leaves
the unit of work). -/
theorem Dispatch_panic_stops (ed : EventDispatcher) (event : Event)
    (pre post : List EventListener) (l : EventListener)
    (hord : deliveryOrder ed event = pre ++ l :: post)
    (hpre : ∀ x ∈ pre, x.panics (effectiveEvent event) = false)
    (hl : l.panics (effectiveEvent event) = true) :
    Dispatch ed event = { invoked := pre.map (·.id) ++ [l.id], panicked := true } := by
  rw [Dispatch_eq_invokeAll, hord]
  exact invokeAll_of_panic _ pre post l hpre hl

/-- Witness for `Dispatch_panic_stops`: a returning wildcard listener, then a
panicking listener for the event name, then one more listener for that name. -/
theorem Dispatch_panic_stops_witness :
    Dispatch (registerAll [("*", { id := 1, panics := fun _ => false }),
                           ("HEARTBEAT", { id := 2, panics := fun _ => true }),
                           ("HEARTBEAT", { id := 3, panics := fun _ => false })])
        { Name := "", Headers := [("Event-Name", "HEARTBEAT")], Body := "", Raw := "" } =
      { invoked := [1, 2], panicked := true } :=
  Dispatch_panic_stops
    (registerAll [("*", { id := 1, panics := fun _ => false }),
                  ("HEARTBEAT", { id := 2, panics := fun _ => true }),
                  ("HEARTBEAT", { id := 3, panics := fun _ => false })])
    { Name := "", Headers := [("Event-Name", "HEARTBEAT")], Body := "", Raw := "" }
    [{ id := 1, panics := fun _ => false }] [{ id := 3, panics := fun _ => false }]
    { id := 2, panics := fun _ => true }
    (by rfl) (by intro x hx; simp at hx; subst hx; rfl) rfl

/-! ## Pool: `Get` under interleaving -/

/-- C1 (failing input): a pool built by `NewConnectionPool` with `MaxOpen = 1`
and `MaxIdle = 0`, and two goroutines calling `Get` at the same time.  Both
pass the two loads of `openCount` (reading 0) before either adds to it, both
dial, both add: `openCount` ends at 2 while `MaxOpen` is 1, and both calls
have returned a pointer to a live connection of their own. -/
theorem Get_race_exceeds_MaxOpen :
    (NewConnectionPool { net := fun _ => true, dial := fun _ => true, now := 0 }
        { MaxOpen := 1, MaxIdle := 0, Timeout := 0, Host := "", Port := 0,
          Password := "", IdleTimeout := 0 }).map
      (fun s0 =>
        let s := runSchedule { net := fun _ => true, dial := fun _ => true, now := 0 }
          { s0 with threads := [.get false .entry, .get false .entry] }
          [.run 0, .run 1, .run 0, .run 1, .run 0, .run 1, .run 0, .run 1,
           .run 0, .run 1, .run 0, .run 1]
        (s.p.openCount, s.p.config.MaxOpen, s.threads)) =
      some (2, 1, [.get false (.returned (.ok 0)), .get false (.returned (.ok 1))]) ∧
    (NewConnectionPool { net := fun _ => true, dial := fun _ => true, now := 0 }
        { MaxOpen := 1, MaxIdle := 0, Timeout := 0, Host := "", Port := 0,
          Password := "", IdleTimeout := 0 }).map
      (fun s0 =>
        let s := runSchedule { net := fun _ => true, dial := fun _ => true, now := 0 }
          { s0 with threads := [.get false .entry, .get false .entry] }
          [.run 0, .run 1, .run 0, .run 1, .run 0, .run 1, .run 0, .run 1,
           .run 0, .run 1, .run 0, .run 1]
        (s.heap 0, s.heap 1)) =
      some ({ id := 0, lastUsed := 0, alive := true, sockClosed := false },
            { id := 1, lastUsed := 0, alive := true, sockClosed := false }) := by
  decide

theorem runSchedule_append (env : Env) (s : System) (a b : List Action) :
    runSchedule env s (a ++ b) = runSchedule env (runSchedule env s a) b := by
  simp [runSchedule, List.foldl_append]

theorem runSchedule_replicate_fixed (env : Env) (s : System) (a : Action)
    (h : step env s a = s) (n : Nat) : runSchedule env s (List.replicate n a) = s := by
  induction n with
  | zero => rfl
  | succ n ih =>
    simp only [List.replicate_succ, runSchedule, List.foldl_cons, h]
    exact ih

theorem set_of_getElem? {α : Type} :
    ∀ (l : List α) (i : Nat) (x : α), l[i]? = some x → l.set i x = l := by
  intro l
  induction l with
  | nil => intro i x h; simp at h
  | cons a l ih =>
    intro i x h
    cases i with
    | zero => simp at h; simp [h]
    | succ i => simp at h; simp [ih i x h]

/-- A goroutine parked in `cond.Wait` has no step of its own: letting the
scheduler run it changes nothing. -/
theorem step_run_waiting (env : Env) (s : System) (tid : Nat) (d : Bool)
    (h : s.threads[tid]? = some (.get d .waiting)) : step env s (.run tid) = s := by
  simp only [step, h, stepGet]
  rw [set_of_getElem? _ _ _ h]

/-- C3 (failing input): `MaxOpen = 2`, both Transports checked out by two
completed `Get` calls, a third `Get` that has reached `cond.Wait`, then its
context is cancelled and no `Put` ever happens.  However many further steps
the scheduler grants the third goroutine, it is still parked in `cond.Wait`:
it never returns `ErrTimeout`. -/
theorem Get_parked_never_times_out (n : Nat) :
    (NewConnectionPool { net := fun _ => true, dial := fun _ => true, now := 0 }
        { MaxOpen := 2, MaxIdle := 2, Timeout := 0, Host := "", Port := 0,
          Password := "", IdleTimeout := 0 }).map
      (fun s0 =>
        let s := runSchedule { net := fun _ => true, dial := fun _ => true, now := 0 }
          { s0 with threads := [.get false .entry, .get false .entry, .get false .entry] }
          ([.run 0, .run 0, .run 0, .run 1, .run 1, .run 1,
            .run 2, .run 2, .run 2, .run 2, .run 2, .cancel 2] ++ List.replicate n (.run 2))
        (s.p.pool, s.p.openCount, s.threads[2]?)) =
    some ([], 2, some (.get true .waiting)) := by
  have key :
      (NewConnectionPool { net := fun _ => true, dial := fun _ => true, now := 0 }
          { MaxOpen := 2, MaxIdle := 2, Timeout := 0, Host := "", Port := 0,
            Password := "", IdleTimeout := 0 }).map
        (fun s0 =>
          let s := runSchedule { net := fun _ => true, dial := fun _ => true, now := 0 }
            { s0 with threads := [.get false .entry, .get false .entry, .get false .entry] }
            [.run 0, .run 0, .run 0, .run 1, .run 1, .run 1,
             .run 2, .run 2, .run 2, .run 2, .run 2, .cancel 2]
          (s.p.pool, s.p.openCount, s.threads[2]?)) =
      some ([], 2, some (.get true .waiting)) := by decide
  cases h : NewConnectionPool { net := fun _ => true, dial := fun _ => true, now := 0 }
      { MaxOpen := 2, MaxIdle := 2, Timeout := 0, Host := "", Port := 0,
        Password := "", IdleTimeout := 0 } with
  | none => rw [h] at key; simp at key
  | some s0 =>
    rw [h] at key
    simp only [Option.map_some', Option.some.injEq, Prod.mk.injEq] at key
    simp only [Option.map_some', runSchedule_append]
    rw [runSchedule_replicate_fixed _ _ _ (step_run_waiting _ _ 2 true key.2.2) n]
    simp only [key]

/-! ## Frame codec: the socket and the buffered reader -/

theorem connRead_some (k : Nat) (hk : 0 < k) :
    ∀ (w : List (List Nat)) (d : List Nat) (w1 : List (List Nat)),
      connRead k w = some (d, w1) →
        d ≠ [] ∧ d.length ≤ k ∧ d ++ w1.flatten = w.flatten := by
  intro w
  induction w with
  | nil => intro d w1 h; simp [connRead] at h
  | cons x w ih =>
    intro d w1 h
    cases x with
    | nil =>
      simp only [connRead] at h
      simpa using ih d w1 h
    | cons b bs =>
      simp only [connRead] at h
      split at h
      · rename_i hle
        simp only [Option.some.injEq, Prod.mk.injEq] at h
        obtain ⟨rfl, rfl⟩ := h
        exact ⟨by simp, hle, by simp⟩
      · rename_i hle
        simp only [Option.some.injEq, Prod.mk.injEq] at h
        obtain ⟨rfl, rfl⟩ := h
        refine ⟨?_, ?_, ?_⟩
        · intro h0
          have := congrArg List.length h0
          simp at this
          omega
        · simp
        · simp only [List.flatten_cons, ← List.append_assoc, List.take_append_drop]

theorem connRead_none (k : Nat) :
    ∀ (w : List (List Nat)), connRead k w = none → w.flatten = [] := by
  intro w
  induction w with
  | nil => intro _; rfl
  | cons x w ih =>
    intro h
    cases x with
    | nil =>
      simp only [connRead] at h
      simpa using ih h
    | cons b bs =>
      simp only [connRead] at h
      split at h <;> simp at h

theorem cutAfter_append (delim : Nat) (l rest : List Nat) (h : delim ∉ l) :
    cutAfter delim (l ++ delim :: rest) = some (l ++ [delim], rest) := by
  induction l with
  | nil => simp [cutAfter]
  | cons b l ih =>
    have hb : ¬ b = delim := fun e => h (by simp [e])
    have hl : delim ∉ l := fun e => h (by simp [e])
    simp [cutAfter, hb, ih hl]

theorem cutAfter_none (delim : Nat) (s : List Nat) (h : cutAfter delim s = none) :
    delim ∉ s := by
  induction s with
  | nil => simp
  | cons b s ih =>
    simp only [cutAfter] at h
    split at h
    · simp at h
    · rename_i hb
      split at h
      · simp at h
      · rename_i hs
        intro hm
        rcases List.mem_cons.mp hm with e | e
        · exact hb e.symm
        · exact ih hs e

theorem cutAfter_some (delim : Nat) (s line rest : List Nat)
    (h : cutAfter delim s = some (line, rest)) :
    ∃ l, delim ∉ l ∧ line = l ++ [delim] ∧ s = l ++ delim :: rest := by
  induction s generalizing line with
  | nil => simp [cutAfter] at h
  | cons b s ih =>
    simp only [cutAfter] at h
    split at h
    · rename_i hb
      simp only [Option.some.injEq, Prod.mk.injEq] at h
      obtain ⟨rfl, rfl⟩ := h
      exact ⟨[], by simp, by simp [hb], by simp [hb]⟩
    · rename_i hb
      split at h
      · rename_i line1 rest1 hs
        simp only [Option.some.injEq, Prod.mk.injEq] at h
        obtain ⟨rfl, rfl⟩ := h
        obtain ⟨l, hl, rfl, rfl⟩ := ih line1 hs
        refine ⟨b :: l, ?_, by simp, by simp⟩
        intro hm
        rcases List.mem_cons.mp hm with e | e
        · exact hb e.symm
        · exact hl e
      · simp at h

/-- The first occurrence of a delimiter determines the split. -/
theorem first_delim_unique (delim : Nat) :
    ∀ (a b x y : List Nat), delim ∉ a → delim ∉ b →
      a ++ delim :: x = b ++ delim :: y → a = b ∧ x = y := by
  intro a
  induction a with
  | nil =>
    intro b x y _ hb h
    cases b with
    | nil => simpa using h
    | cons c b =>
      simp only [List.nil_append, List.cons_append, List.cons.injEq] at h
      exact absurd (by simp [h.1]) hb
  | cons c a ih =>
    intro b x y ha hb h
    cases b with
    | nil =>
      simp only [List.nil_append, List.cons_append, List.cons.injEq] at h
      exact absurd (by simp [h.1]) ha
    | cons e b =>
      simp only [List.cons_append, List.cons.injEq] at h
      have ha1 : delim ∉ a := fun m => ha (by simp [m])
      have hb1 : delim ∉ b := fun m => hb (by simp [m])
      obtain ⟨h1, h2⟩ := ih b x y ha1 hb1 h.2
      exact ⟨by rw [h.1, h1], h2⟩

/-- A delimiter-free prefix of a stream lies inside the first line. -/
theorem delim_free_head (delim : Nat) :
    ∀ (b f l rest : List Nat), delim ∉ b → b ++ f = l ++ delim :: rest →
      ∃ l2, l = b ++ l2 ∧ f = l2 ++ delim :: rest := by
  intro b
  induction b with
  | nil => intro f l rest _ h; exact ⟨l, rfl, by simpa using h⟩
  | cons c b ih =>
    intro f l rest hb h
    cases l with
    | nil =>
      simp only [List.nil_append, List.cons_append, List.cons.injEq] at h
      exact absurd (by simp [h.1]) hb
    | cons e l =>
      simp only [List.cons_append, List.cons.injEq] at h
      have hb1 : delim ∉ b := fun m => hb (by simp [m])
      obtain ⟨l2, h1, h2⟩ := ih f l rest hb1 h.2
      exact ⟨l2, by rw [h.1, h1]; rfl, h2⟩

/-- `ReadString` on a stream that holds a delimiter: the loop returns the
bytes up to and including the first delimiter, whatever the batching, and
the bytes after it are still to be read. -/
theorem readStringLoop_line (delim : Nat) :
    ∀ (fuel : Nat) (acc : List Nat) (r : Reader) (l rest : List Nat),
      delim ∉ l →
      r.buf ++ r.rd.flatten = l ++ delim :: rest →
      2 * r.rd.flatten.length + (if r.buf.length ≥ bufSize then 1 else 0) + 1 ≤ fuel →
      ∃ r1, readStringLoop delim fuel acc r = .ok (acc ++ l ++ [delim]) r1 ∧
        r1.buf ++ r1.rd.flatten = rest := by
  intro fuel
  induction fuel with
  | zero => intro acc r l rest _ _ hf; omega
  | succ fuel ih =>
    intro acc r l rest hl hs hf
    simp only [readStringLoop]
    cases hc : cutAfter delim r.buf with
    | some lr =>
      obtain ⟨line, rest0⟩ := lr
      obtain ⟨l0, hl0, rfl, hbuf⟩ := cutAfter_some delim r.buf line rest0 hc
      rw [hbuf, List.append_assoc, List.cons_append] at hs
      obtain ⟨h1, h2⟩ := first_delim_unique delim l0 l _ _ hl0 hl hs
      subst h1
      exact ⟨{ r with buf := rest0 }, by simp, h2⟩
    | none =>
      have hb : delim ∉ r.buf := cutAfter_none delim r.buf hc
      obtain ⟨l2, hl2, hf2⟩ := delim_free_head delim r.buf _ l rest hb hs
      have hl2n : delim ∉ l2 := fun m => hl (by rw [hl2]; simp [m])
      simp only
      by_cases hfull : r.buf.length ≥ bufSize
      · simp only [hfull, if_true]
        obtain ⟨r1, hr1, hr2⟩ := ih (acc ++ r.buf) { r with buf := [] } l2 rest hl2n
          (by simpa using hf2)
          (by
            rw [if_pos hfull] at hf
            have h0 : ¬ (([] : List Nat).length ≥ bufSize) := by simp [bufSize]
            simp only [h0, if_false]
            omega)
        exact ⟨r1, by rw [hr1, hl2]; simp, hr2⟩
      · simp only [hfull, if_false]
        cases hrd : connRead (bufSize - r.buf.length) r.rd with
        | none =>
          have := connRead_none _ _ hrd
          rw [this] at hf2
          cases l2 <;> simp at hf2
        | some dw =>
          obtain ⟨d, w1⟩ := dw
          obtain ⟨hd1, hd2, hd3⟩ := connRead_some _ (by omega) _ _ _ hrd
          have hdl : 0 < d.length := List.length_pos.mpr hd1
          have hlen : r.rd.flatten.length = d.length + w1.flatten.length := by
            rw [← hd3]; simp
          simp only
          obtain ⟨r1, hr1, hr2⟩ := ih acc { buf := r.buf ++ d, rd := w1 } l rest hl
            (by simp only [List.append_assoc, hd3]; exact hs)
            (by
              simp only [hfull, if_false] at hf
              show 2 * w1.flatten.length + (if (r.buf ++ d).length ≥ bufSize then 1 else 0) + 1
                ≤ fuel
              split <;> omega)
          exact ⟨r1, hr1, hr2⟩

theorem readFullLoop_take :
    ∀ (fuel need : Nat) (acc : List Nat) (r : Reader),
      need ≤ (r.buf ++ r.rd.flatten).length →
      2 * need + (if r.buf = [] then 1 else 0) + 1 ≤ fuel →
      ∃ r1, readFullLoop fuel need acc r = .ok (acc ++ (r.buf ++ r.rd.flatten).take need) r1 ∧
        r1.buf ++ r1.rd.flatten = (r.buf ++ r.rd.flatten).drop need := by
  intro fuel
  induction fuel with
  | zero => intro need acc r _ hf; omega
  | succ fuel ih =>
    intro need acc r hn hf
    obtain ⟨buf, rd⟩ := r
    simp only [readFullLoop]
    by_cases h0 : need = 0
    · subst h0
      exact ⟨⟨buf, rd⟩, by simp, by simp⟩
    · simp only [h0, if_false]
      cases buf with
      | nil =>
        simp only [List.nil_append] at hn ⊢
        simp only [if_true] at hf
        by_cases hbig : need ≥ bufSize
        · simp only [hbig, if_true]
          cases hrd : connRead need rd with
          | none =>
            have := connRead_none _ _ hrd
            rw [this] at hn
            simp at hn
            omega
          | some dw =>
            obtain ⟨d, w1⟩ := dw
            obtain ⟨hd1, hd2, hd3⟩ := connRead_some _ (by omega) _ _ _ hrd
            have hdl : 0 < d.length := List.length_pos.mpr hd1
            simp only
            obtain ⟨r1, hr1, hr2⟩ := ih (need - d.length) (acc ++ d) { buf := [], rd := w1 }
              (by rw [← hd3] at hn; simp at hn ⊢; omega)
              (by simp only [if_true]; omega)
            refine ⟨r1, ?_, ?_⟩
            · rw [hr1, ← hd3]
              simp [List.take_append_eq_append_take, List.take_of_length_le hd2]
            · rw [hr2, ← hd3]
              simp [List.drop_append_eq_append_drop, List.drop_of_length_le hd2]
        · simp only [hbig, if_false]
          cases hrd : connRead bufSize rd with
          | none =>
            have := connRead_none _ _ hrd
            rw [this] at hn
            simp at hn
            omega
          | some dw =>
            obtain ⟨d, w1⟩ := dw
            obtain ⟨hd1, hd2, hd3⟩ := connRead_some _ (by simp [bufSize]) _ _ _ hrd
            simp only
            obtain ⟨r1, hr1, hr2⟩ := ih need acc { buf := d, rd := w1 }
              (by simp only [hd3]; exact hn)
              (by simp only [hd1, if_false]; omega)
            refine ⟨r1, ?_, ?_⟩
            · rw [hr1]; simp only [hd3]
            · rw [hr2]; simp only [hd3]
      | cons b bs =>
        simp only
        have hk : 1 ≤ min need (b :: bs).length := by
          simp only [List.length_cons]; omega
        obtain ⟨r1, hr1, hr2⟩ := ih (need - min need (b :: bs).length)
          (acc ++ (b :: bs).take need) { buf := (b :: bs).drop need, rd := rd }
          (by simp only [List.length_append, List.length_drop] at hn ⊢; omega)
          (by split <;> omega)
        refine ⟨r1, ?_, ?_⟩
        · rw [hr1]
          simp only [List.append_assoc, List.append_cancel_left_eq]
          by_cases hle : need ≤ (b :: bs).length
          · rw [Nat.min_eq_left hle, Nat.sub_self, List.take_zero, List.append_nil,
              List.take_append_of_le_length hle]
          · have hge : (b :: bs).length ≤ need := by omega
            rw [Nat.min_eq_right hge, List.drop_of_length_le hge, List.take_of_length_le hge,
              List.nil_append, List.take_append_eq_append_take, List.take_of_length_le hge]
        · rw [hr2]
          by_cases hle : need ≤ (b :: bs).length
          · rw [Nat.min_eq_left hle, Nat.sub_self, List.drop_zero,
              List.drop_append_of_le_length hle]
          · have hge : (b :: bs).length ≤ need := by omega
            rw [Nat.min_eq_right hge, List.drop_of_length_le hge, List.nil_append,
              List.drop_append_eq_append_drop, List.drop_of_length_le hge, List.nil_append]

theorem ReadString_line (r : Reader) (l rest : List Nat) (hl : 10 ∉ l)
    (hs : r.buf ++ r.rd.flatten = l ++ 10 :: rest) :
    ∃ r1, ReadString r 10 = .ok (l ++ [10]) r1 ∧ r1.buf ++ r1.rd.flatten = rest := by
  obtain ⟨r1, h1, h2⟩ := readStringLoop_line 10 (2 * r.rd.flatten.length + 2) [] r l rest hl hs
    (by split <;> omega)
  exact ⟨r1, by simpa [ReadString] using h1, h2⟩

theorem ReadFull_take (r : Reader) (n : Nat) (hn : n ≤ (r.buf ++ r.rd.flatten).length) :
    ∃ r1, ReadFull r n = .ok ((r.buf ++ r.rd.flatten).take n) r1 ∧
      r1.buf ++ r1.rd.flatten = (r.buf ++ r.rd.flatten).drop n := by
  obtain ⟨r1, h1, h2⟩ := readFullLoop_take (2 * n + 2) n [] r hn (by split <;> omega)
  exact ⟨r1, by simpa [ReadFull] using h1, h2⟩

theorem joinLines_cons (l : List Nat) (ls : List (List Nat)) :
    joinLines (l :: ls) = l ++ 10 :: joinLines ls := by
  simp [joinLines]

theorem joinLines_append (xs ys : List (List Nat)) :
    joinLines (xs ++ ys) = joinLines xs ++ joinLines ys := by
  simp [joinLines]

theorem length_le_joinLines (ls : List (List Nat)) : ls.length ≤ (joinLines ls).length := by
  induction ls with
  | nil => simp [joinLines]
  | cons l ls ih =>
    rw [joinLines_cons]
    simp only [List.length_cons, List.length_append]
    omega

/-- The header loop on a stream that starts with the non-blank lines `hdr`
and a blank line `last`: it returns the trimmed lines, each followed by a
newline, and the value of `contentLength` after the last line; the bytes
after the blank line are still to be read. -/
theorem readHeader_block :
    ∀ (hdr : List (List Nat)) (fuel : Nat) (r : Reader) (buffer : List Nat) (cl : Int)
      (last tail : List Nat),
      (∀ l ∈ hdr, 10 ∉ l ∧ TrimSpace (l ++ [10]) ≠ []) →
      (10 ∉ last ∧ TrimSpace (last ++ [10]) = []) →
      r.buf ++ r.rd.flatten = joinLines hdr ++ last ++ 10 :: tail →
      hdr.length + 1 ≤ fuel →
      ∃ r1, readHeader fuel r buffer cl =
          .ok (buffer ++ joinLines (hdr.map (fun l => TrimSpace (l ++ [10]))) ++ [10],
               (hdr.map (fun l => TrimSpace (l ++ [10]))).foldl
                 (fun n line => parseContentLength line n) cl) r1 ∧
        r1.buf ++ r1.rd.flatten = tail := by
  intro hdr
  induction hdr with
  | nil =>
    intro fuel r buffer cl last tail _ hlast hs hf
    cases fuel with
    | zero => omega
    | succ fuel =>
      simp only [joinLines, List.map_nil, List.flatten_nil, List.nil_append] at hs
      obtain ⟨r1, h1, h2⟩ := ReadString_line r last tail hlast.1 hs
      refine ⟨r1, ?_, h2⟩
      simp [readHeader, h1, hlast.2, joinLines]
  | cons l hdr ih =>
    intro fuel r buffer cl last tail hhdr hlast hs hf
    cases fuel with
    | zero => omega
    | succ fuel =>
      have hl := hhdr l (by simp)
      simp only [joinLines_cons, List.append_assoc, List.cons_append] at hs
      obtain ⟨r1, h1, h2⟩ := ReadString_line r l _ hl.1 hs
      obtain ⟨r2, h3, h4⟩ := ih fuel r1 (buffer ++ TrimSpace (l ++ [10]) ++ [10])
        (parseContentLength (TrimSpace (l ++ [10])) cl) last tail
        (fun x hx => hhdr x (by simp [hx])) hlast (by rw [h2]; simp)
        (by simp only [List.length_cons] at hf; omega)
      refine ⟨r2, ?_, h4⟩
      simp only [readHeader, h1, hl.2, if_false, h3]
      simp [joinLines_cons]

theorem contentLengthKey_eq :
    contentLengthKey = [67, 111, 110, 116, 101, 110, 116, 45, 76, 101, 110, 103, 116, 104, 58] := by
  decide

theorem parseContentLength_of_key (line : List Nat) (cl : Int)
    (h : HasPrefix line contentLengthKey = true) :
    parseContentLength line cl = Atoi (TrimSpace (line.drop contentLengthKey.length)) := by
  unfold HasPrefix at h
  obtain ⟨rest, rfl⟩ := List.isPrefixOf_iff_prefix.mp h
  have h2 : HasPrefix (contentLengthKey ++ rest) contentLengthKey = true := by
    unfold HasPrefix; exact h
  simp only [parseContentLength, h2, if_true, List.drop_left]
  simp [contentLengthKey_eq, SplitN2, List.span, List.span.loop]

theorem parseContentLength_of_not_key (line : List Nat) (cl : Int)
    (h : HasPrefix line contentLengthKey = false) :
    parseContentLength line cl = cl := by
  simp [parseContentLength, h]

/-- The header loop keeps the value of the last `Content-Length` line. -/
theorem foldl_parseContentLength (lines : List (List Nat)) :
    ∀ (cl : Int), lines.foldl (fun n line => parseContentLength line n) cl =
      match (lines.filter (fun l => HasPrefix l contentLengthKey)).getLast? with
      | none => cl
      | some l => Atoi (TrimSpace (l.drop contentLengthKey.length)) := by
  induction lines with
  | nil => intro cl; rfl
  | cons l ls ih =>
    intro cl
    simp only [List.foldl_cons, ih]
    by_cases hk : HasPrefix l contentLengthKey = true
    · simp only [List.filter_cons, hk, if_true, parseContentLength_of_key l cl hk]
      cases hls : (ls.filter (fun l => HasPrefix l contentLengthKey)) with
      | nil => simp
      | cons x xs =>
        obtain ⟨y, hy⟩ : ∃ y, (x :: xs).getLast? = some y :=
          ⟨_, List.getLast?_eq_getLast _ (by simp)⟩
        simp [List.getLast?_cons_cons, hy]
    · have hk2 : HasPrefix l contentLengthKey = false := by simpa using hk
      simp only [List.filter_cons, hk2, Bool.false_eq_true, if_false,
        parseContentLength_of_not_key l cl hk2]

/-- `ReadMessage` on a stream that starts with the non-blank lines `hdr` and a
blank line, in terms of the value `n` that the header loop leaves in
`contentLength`. -/
theorem ReadMessage_block (c : Connection) (wire : List (List Nat))
    (hdr : List (List Nat)) (last tail : List Nat)
    (hwire : wire.flatten = joinLines hdr ++ last ++ 10 :: tail)
    (hhdr : ∀ l ∈ hdr, 10 ∉ l ∧ TrimSpace (l ++ [10]) ≠ [])
    (hlast : 10 ∉ last ∧ TrimSpace (last ++ [10]) = [])
    (n : Int)
    (hn : (hdr.map (fun l => TrimSpace (l ++ [10]))).foldl
      (fun n line => parseContentLength line n) 0 = n) :
    (n ≤ 0 →
      ∃ w, ReadMessage c wire =
        (.frame (joinLines (hdr.map (fun l => TrimSpace (l ++ [10]))) ++ [10]) w, c)) ∧
    (0 < n → n.toNat ≤ tail.length →
      ∃ w, ReadMessage c wire =
        (.frame (joinLines (hdr.map (fun l => TrimSpace (l ++ [10]))) ++ [10] ++
          tail.take n.toNat) w, c)) := by
  have hfuel : hdr.length + 1 ≤ wire.flatten.length + 1 := by
    have := length_le_joinLines hdr
    rw [hwire]
    simp only [List.length_append]
    omega
  obtain ⟨r1, h1, h2⟩ := readHeader_block hdr (wire.flatten.length + 1) (NewReader wire) [] 0
    last tail hhdr hlast (by simpa [NewReader] using hwire) hfuel
  rw [hn] at h1
  constructor
  · intro hle
    refine ⟨r1.rd, ?_⟩
    simp only [ReadMessage, h1]
    rw [if_neg (by omega)]
    simp
  · intro hpos hlen
    obtain ⟨r2, h3, _⟩ := ReadFull_take r1 n.toNat (by rw [h2]; exact hlen)
    refine ⟨r2.rd, ?_⟩
    simp only [ReadMessage, h1]
    rw [if_pos hpos, h3, h2]
    simp

/-- The value left in `contentLength` by the header loop is the declared
length of the block: the last `Content-Length` line decides. -/
theorem foldl_eq_declaredLength (lines : List (List Nat)) :
    lines.foldl (fun n line => parseContentLength line n) 0 = declaredLength lines := by
  rw [foldl_parseContentLength]
  rfl

/-- C4 (amended): for every byte stream, however it is batched, that starts
with header lines `hdr` (none blank after trimming) followed by a line that is
blank after trimming, `ReadMessage` succeeds as follows.  The body length `n` is
the value of the last `Content-Length:` line of the block (0 when there is
none).  When `n ≤ 0` the frame is the trimmed header lines and the empty
line, nothing else; when `n > 0` and the stream holds at least `n` further
bytes, the frame is the same block followed by exactly the next `n` bytes. -/
theorem ReadMessage_frame (c : Connection) (wire : List (List Nat))
    (hdr : List (List Nat)) (last tail : List Nat)
    (hwire : wire.flatten = joinLines hdr ++ last ++ 10 :: tail)
    (hhdr : ∀ l ∈ hdr, 10 ∉ l ∧ TrimSpace (l ++ [10]) ≠ [])
    (hlast : 10 ∉ last ∧ TrimSpace (last ++ [10]) = []) :
    (declaredLength (hdr.map (fun l => TrimSpace (l ++ [10]))) ≤ 0 →
      ∃ w, ReadMessage c wire =
        (.frame (joinLines (hdr.map (fun l => TrimSpace (l ++ [10]))) ++ [10]) w, c)) ∧
    (0 < declaredLength (hdr.map (fun l => TrimSpace (l ++ [10]))) →
      (declaredLength (hdr.map (fun l => TrimSpace (l ++ [10])))).toNat ≤ tail.length →
      ∃ w, ReadMessage c wire =
        (.frame (joinLines (hdr.map (fun l => TrimSpace (l ++ [10]))) ++ [10] ++
          tail.take (declaredLength (hdr.map (fun l => TrimSpace (l ++ [10])))).toNat) w, c)) := by
  have hlast_wins := foldl_eq_declaredLength (hdr.map (fun l => TrimSpace (l ++ [10])))
  have hblock := ReadMessage_block c wire hdr last tail hwire hhdr hlast _ hlast_wins
  constructor
  · intro hle
    exact hblock.1 hle
  · intro hpos hlen
    exact hblock.2 hpos hlen

/-! ## `TrimSpace` on lines without surrounding white space -/

theorem trimFront_length_le (width : List Nat → Nat) :
    ∀ (n : Nat) (s : List Nat), (trimFront width n s).length ≤ s.length := by
  intro n
  induction n with
  | zero => intro s; simp [trimFront]
  | succ n ih =>
    intro s
    simp only [trimFront]
    split
    · exact Nat.le_refl _
    · exact Nat.le_trans (ih _) (by simp)

theorem trimFront_of_zero (width : List Nat → Nat) (n : Nat) (s : List Nat)
    (h : width s = 0) : trimFront width n s = s := by
  cases n <;> simp [trimFront, h]

theorem width_zero_of_trimFront_length (width : List Nat → Nat) (n : Nat) (s : List Nat)
    (hs : s ≠ []) (h : (trimFront width (n + 1) s).length = s.length) : width s = 0 := by
  by_contra hw
  simp only [trimFront, hw, if_false] at h
  have h1 := trimFront_length_le width n (s.drop (width s))
  have h2 : 0 < s.length := List.length_pos.mpr hs
  simp only [List.length_drop] at h1
  omega

theorem spaceRunes_pos : ∀ r ∈ spaceRunes, 0 < r.length := by
  decide

theorem spaceRunes_newline : ∀ r ∈ spaceRunes, r.getLast? = some 10 → r = [10] := by
  decide

theorem leadingSpace_eq_zero (s : List Nat) :
    leadingSpace s = 0 ↔ ∀ r ∈ spaceRunes, r.isPrefixOf s = false := by
  unfold leadingSpace
  cases hf : spaceRunes.find? (fun r => r.isPrefixOf s) with
  | none =>
    simp only [true_iff]
    intro r hr
    exact Bool.eq_false_iff.mpr (List.find?_eq_none.mp hf r hr)
  | some r =>
    have hr := List.mem_of_find?_eq_some hf
    have hp := List.find?_some hf
    have hpos := spaceRunes_pos r hr
    constructor
    · intro h0; simp only at h0; omega
    · intro h; rw [h r hr] at hp; simp at hp

theorem leadingSpace_append_newline (l : List Nat) (hl : l ≠ []) (h : leadingSpace l = 0) :
    leadingSpace (l ++ [10]) = 0 := by
  rw [leadingSpace_eq_zero] at h ⊢
  intro r hr
  have h1 := h r hr
  by_contra h2
  have h3 : r.isPrefixOf (l ++ [10]) = true := by simpa using h2
  rw [List.isPrefixOf_iff_prefix] at h3
  rcases List.prefix_concat_iff.mp h3 with h4 | h4
  · have h5 : r = [10] := spaceRunes_newline r hr (by rw [h4]; simp)
    rw [h5] at h4
    have := congrArg List.length h4
    simp only [List.length_append, List.length_singleton, List.length_cons,
      List.length_nil] at this
    have h6 : 0 < l.length := List.length_pos.mpr hl
    omega
  · have h5 : r.isPrefixOf l = true := List.isPrefixOf_iff_prefix.mpr h4
    rw [h1] at h5
    exact Bool.noConfusion h5

theorem trailingSpace_newline (s : List Nat) : trailingSpace (10 :: s) = 1 := by
  simp [trailingSpace, spaceRunes, List.find?, List.isPrefixOf]

/-- A non-empty line that `TrimSpace` leaves alone comes back unchanged,
without its newline, when it is read from the wire with the newline. -/
theorem TrimSpace_line (l : List Nat) (hl : l ≠ []) (h : TrimSpace l = l) :
    TrimSpace (l ++ [10]) = l := by
  have hpos : 0 < l.length := List.length_pos.mpr hl
  obtain ⟨n, hn⟩ : ∃ n, l.length = n + 1 := ⟨l.length - 1, by omega⟩
  have hlen : (TrimSpace l).length = l.length := by rw [h]
  have h1 := trimFront_length_le leadingSpace l.length l
  have h2 := trimFront_length_le trailingSpace (trimFront leadingSpace l.length l).length
    (trimFront leadingSpace l.length l).reverse
  simp only [TrimSpace, List.length_reverse] at hlen h2
  have hlead : leadingSpace l = 0 := by
    apply width_zero_of_trimFront_length leadingSpace n l hl
    rw [← hn]; omega
  have ht : trimFront leadingSpace l.length l = l := trimFront_of_zero _ _ _ hlead
  rw [ht] at hlen
  have htrail : trailingSpace l.reverse = 0 := by
    apply width_zero_of_trimFront_length trailingSpace n l.reverse (by simpa using hl)
    rw [← hn, hlen]; simp
  have hlead2 := leadingSpace_append_newline l hl hlead
  simp only [TrimSpace]
  rw [trimFront_of_zero _ _ _ hlead2]
  simp only [List.length_append, List.length_singleton, List.reverse_append,
    List.reverse_singleton, List.singleton_append, trimFront, trailingSpace_newline,
    List.drop_one, List.tail_cons]
  rw [if_neg (by omega), trimFront_of_zero _ _ _ htrail, List.reverse_reverse]

/-! ## Frame codec: `ReadMessage` -/

/-- Witness for `ReadMessage_frame`: a `Content-Length: 3` header with CRLF
line ends, arriving in two batches that split the header line, followed by
six more bytes. -/
theorem ReadMessage_frame_witness :
    ∃ w, ReadMessage { id := 0, lastUsed := 0, alive := true, sockClosed := false }
        [bytes "Content-Len", bytes "gth: 3\r\n\r\nabcdef"] =
      (.frame (joinLines ([bytes "Content-Length: 3\r"].map (fun l => TrimSpace (l ++ [10]))) ++
          [10] ++
          (bytes "abcdef").take
            (declaredLength
              ([bytes "Content-Length: 3\r"].map (fun l => TrimSpace (l ++ [10])))).toNat) w,
        { id := 0, lastUsed := 0, alive := true, sockClosed := false }) :=
  (ReadMessage_frame { id := 0, lastUsed := 0, alive := true, sockClosed := false }
    [bytes "Content-Len", bytes "gth: 3\r\n\r\nabcdef"]
    [bytes "Content-Length: 3\r"] [13] (bytes "abcdef")
    (by decide) (by decide) (by decide)).2 (by decide) (by decide)

/-- C4 (counterexample): a header block with `Content-Length: 3` followed by
`Content-Length: 5`.  The first occurrence declares 3, yet `ReadMessage`
returns the block followed by five body bytes: the later line has replaced
the earlier value. -/
theorem ReadMessage_later_Content_Length_counterexample :
    ReadMessage { id := 0, lastUsed := 0, alive := true, sockClosed := false }
        [bytes "Content-Length: 3\nContent-Length: 5\n\nabcdefgh"] =
      (.frame (bytes "Content-Length: 3\nContent-Length: 5\n\nabcde") [],
        { id := 0, lastUsed := 0, alive := true, sockClosed := false }) ∧
    declaredLengthFirst [bytes "Content-Length: 3", bytes "Content-Length: 5"] = 3 := by
  decide

/-- C10 (failing input): two complete frames `A: 1` and `B: 2` that reach the
socket as one batch.  The first `ReadMessage` returns the first frame, but its
buffered reader has taken both frames off the socket and is dropped with the
second one inside: nothing is left for the second call, which fails. -/
theorem ReadMessage_drops_buffered_frame :
    ReadMessage { id := 0, lastUsed := 0, alive := true, sockClosed := false }
        [bytes "A: 1\n\nB: 2\n\n"] =
      (.frame (bytes "A: 1\n\n") [],
        { id := 0, lastUsed := 0, alive := true, sockClosed := false }) ∧
    ReadMessage { id := 0, lastUsed := 0, alive := true, sockClosed := false } [] =
      (.failed .headerFailed,
        { id := 0, lastUsed := 0, alive := false, sockClosed := false }) := by
  decide

/-! ## Command builder and frame reader -/

theorem Build_layout (cmd : Command) :
    Build cmd =
      joinLines (verbLine cmd :: cmd.headers.map headerLine) ++ [] ++
        10 :: (if cmd.params.length > 0 then joinLines (cmd.params.map paramLine) ++ [10]
               else []) := by
  unfold Build
  rw [joinLines_cons]
  split <;> simp

/-- C5 (counterexample): two commands on which the round trip fails.  With
the single header `Content-Length: 5` and no parameters, `ReadMessage` over
the bytes of `Build` waits for a five-byte body and fails.  With the command
`"status "` (a trailing blank) it returns `status` without the blank, which is
not what `Build` wrote. -/
theorem ReadMessage_Build_counterexample :
    (ReadMessage { id := 0, lastUsed := 0, alive := true, sockClosed := false }
        [Build { cmdType := .API, command := bytes "status", params := [],
                 headers := [(bytes "Content-Length", bytes "5")],
                 async := false, timeout := 0 }]).1 = .failed .bodyFailed ∧
    Build { cmdType := .API, command := bytes "status ", params := [], headers := [],
            async := false, timeout := 0 } = bytes "status \n\n" ∧
    (ReadMessage { id := 0, lastUsed := 0, alive := true, sockClosed := false }
        [Build { cmdType := .API, command := bytes "status ", params := [], headers := [],
                 async := false, timeout := 0 }]).1 = .frame (bytes "status\n\n") [] := by
  decide

/-- C5 (amended): for every command whose verb line and header lines, as
`Build` writes them, hold no newline, are not empty, are left unchanged by
`TrimSpace`, and declare no positive `Content-Length`, `ReadMessage` over the
bytes of `Build` (however batched) succeeds and returns the verb line, the
header lines and the blank line after them; `Build`'s output is that frame
followed by the parameter block, which is empty when there are no
parameters. -/
theorem ReadMessage_Build (cmd : Command) (c : Connection) (wire : List (List Nat))
    (hwire : wire.flatten = Build cmd)
    (hclean : ∀ l ∈ verbLine cmd :: cmd.headers.map headerLine,
      10 ∉ l ∧ l ≠ [] ∧ TrimSpace l = l)
    (hlen : declaredLength (verbLine cmd :: cmd.headers.map headerLine) ≤ 0) :
    (∃ w, ReadMessage c wire =
      (.frame (verbLine cmd ++ [10] ++ joinLines (cmd.headers.map headerLine) ++ [10]) w, c)) ∧
    Build cmd =
      (verbLine cmd ++ [10] ++ joinLines (cmd.headers.map headerLine) ++ [10]) ++
        (if cmd.params.length > 0 then joinLines (cmd.params.map paramLine) ++ [10] else []) := by
  have hmap : (verbLine cmd :: cmd.headers.map headerLine).map (fun l => TrimSpace (l ++ [10])) =
      verbLine cmd :: cmd.headers.map headerLine := by
    conv_rhs => rw [← List.map_id (verbLine cmd :: cmd.headers.map headerLine)]
    apply List.map_congr_left
    intro l hl
    exact TrimSpace_line l (hclean l hl).2.1 (hclean l hl).2.2
  have hframe := ReadMessage_block c wire (verbLine cmd :: cmd.headers.map headerLine) []
    (if cmd.params.length > 0 then joinLines (cmd.params.map paramLine) ++ [10] else [])
    (by rw [hwire, Build_layout])
    (fun l hl => ⟨(hclean l hl).1, by
      rw [TrimSpace_line l (hclean l hl).2.1 (hclean l hl).2.2]; exact (hclean l hl).2.1⟩)
    ⟨by simp, by decide⟩ _ (foldl_eq_declaredLength _)
  rw [hmap] at hframe
  constructor
  · obtain ⟨w, hw⟩ := hframe.1 hlen
    refine ⟨w, ?_⟩
    rw [hw, joinLines_cons]
    simp
  · rw [Build_layout, joinLines_cons]
    simp

/-- Witness for `ReadMessage_Build`: a `bgapi status` command with one
header and one parameter, its bytes arriving as one batch. -/
theorem ReadMessage_Build_witness :
    (∃ w, ReadMessage { id := 0, lastUsed := 0, alive := true, sockClosed := false }
        [Build { cmdType := .BGAPI, command := bytes "status",
                 params := [(bytes "a", bytes "b")],
                 headers := [(bytes "Job-UUID", bytes "x")], async := false, timeout := 0 }] =
      (.frame (bytes "bgapi status" ++
          [10] ++ joinLines ([(bytes "Job-UUID", bytes "x")].map headerLine) ++ [10]) w,
        { id := 0, lastUsed := 0, alive := true, sockClosed := false })) :=
  (ReadMessage_Build
    { cmdType := .BGAPI, command := bytes "status", params := [(bytes "a", bytes "b")],
      headers := [(bytes "Job-UUID", bytes "x")], async := false, timeout := 0 }
    { id := 0, lastUsed := 0, alive := true, sockClosed := false }
    [Build { cmdType := .BGAPI, command := bytes "status", params := [(bytes "a", bytes "b")],
             headers := [(bytes "Job-UUID", bytes "x")], async := false, timeout := 0 }]
    (by simp) (by decide) (by decide)).1

/-! ## Consistency of the embedding -/

/-- The scan of `healthCheck` always runs until `i` has reached the current
length of the channel: the iteration bound used by `healthLoop` is never
what stops it. -/
theorem healthLoop_runs_out (net : Nat → Bool) (clock : Nat → Int) :
    ∀ (fuel : Nat) (s : HealthScan), s.p.pool.length - s.i ≤ fuel →
      ¬ ((healthLoop net clock fuel s).i < (healthLoop net clock fuel s).p.pool.length) := by
  intro fuel
  induction fuel with
  | zero =>
    intro s h
    simp only [healthLoop]
    omega
  | succ fuel ih =>
    intro s h
    simp only [healthLoop]
    by_cases hi : s.i < s.p.pool.length
    · simp only [hi, if_true]
      cases hp : s.p.pool with
      | nil => rw [hp] at hi; simp at hi
      | cons conn rest =>
        rw [hp] at h
        simp only [List.length_cons] at h
        simp only
        split
        · apply ih
          simp only
          omega
        · apply ih
          simp only [List.length_append, List.length_singleton]
          omega
    · rw [if_neg hi]
      exact hi

theorem store_store (heap : Heap) (a : Nat) (x y : Connection) :
    (heap.store a x).store a y = heap.store a y := by
  funext k
  unfold Heap.store
  by_cases h : k = a <;> simp [h]

/-- The three steps of a lone `Put` goroutine change the pool and the heap
exactly as the function `Put` does. -/
theorem Put_steps (env : Env) (p : connectionPoolImpl) (heap : Heap) (conn : Nat) (d : Nat) :
    (runSchedule env
        { p := p, heap := heap, threads := [.put (.entry conn)], waiters := [], dials := d }
        [.run 0, .run 0, .run 0]).p = (Put env.net env.now heap p conn).1 ∧
    (runSchedule env
        { p := p, heap := heap, threads := [.put (.entry conn)], waiters := [], dials := d }
        [.run 0, .run 0, .run 0]).heap = (Put env.net env.now heap p conn).2 := by
  simp only [runSchedule, List.foldl_cons, List.foldl_nil, step, Put]
  cases hc : p.closed
  · cases hv : ((heap conn).IsValid env.net).1
    · simp [stepPut, hc, hv]
    · by_cases hl : p.pool.length < p.capacity
      · simp [stepPut, hc, hv, hl, condSignal]
      · simp [stepPut, hc, hv, hl, store_store, Heap.store]
  · simp [stepPut, hc]

/-- With the same pool as in `Get_race_exceeds_MaxOpen`, the two calls of
`Get` run one after the other keep `openCount` at `MaxOpen`: the first
returns a new connection, the second finds the cap reached and parks. -/
theorem Get_sequential_keeps_cap :
    (NewConnectionPool { net := fun _ => true, dial := fun _ => true, now := 0 }
        { MaxOpen := 1, MaxIdle := 0, Timeout := 0, Host := "", Port := 0,
          Password := "", IdleTimeout := 0 }).map
      (fun s0 =>
        let s := runSchedule { net := fun _ => true, dial := fun _ => true, now := 0 }
          { s0 with threads := [.get false .entry, .get false .entry] }
          [.run 0, .run 0, .run 0, .run 0, .run 0, .run 0,
           .run 1, .run 1, .run 1, .run 1, .run 1, .run 1]
        (s.p.openCount, s.threads)) =
    some (1, [.get false (.returned (.ok 0)), .get false .waiting]) := by
  decide

/-- A parked `Get` is woken by a `Put`: with both Transports checked out and a
third `Get` waiting, a `Put` of the first Transport sends it to the idle
channel and signals, and the waiting `Get` then returns that Transport. -/
theorem Get_woken_by_Put :
    (NewConnectionPool { net := fun _ => true, dial := fun _ => true, now := 7 }
        { MaxOpen := 2, MaxIdle := 2, Timeout := 0, Host := "", Port := 0,
          Password := "", IdleTimeout := 0 }).map
      (fun s0 =>
        let s := runSchedule { net := fun _ => true, dial := fun _ => true, now := 7 }
          { s0 with
            threads := [.get false .entry, .get false .entry, .get false .entry,
                        .put (.entry 0)] }
          [.run 0, .run 0, .run 0, .run 1, .run 1, .run 1,
           .run 2, .run 2, .run 2, .run 2, .run 2,
           .run 3, .run 3, .run 3, .run 2, .run 2]
        (s.p.pool, s.p.openCount, s.threads[2]?)) =
    some ([], 2, some (.get false (.returned (.ok 0)))) := by
  decide

end GoEsl
